import Mathlib

/-! trayjs: the protocol engine of the native tray helpers

A shallow embedding of `src/linux/main.c` and `src-win/main.c`:
the base64 decoder, the stdin framers, the menu builders with the Windows
command-id registry, and the two command dispatchers.

Conventions of the embedding.

* A C string is the list of its bytes before the terminating NUL (`CString`).
* A function that can read outside a buffer or hand a NULL pointer to a routine
  that reads a string reports that as a `Fault` instead of a result.
* `malloc`, `realloc` and the cJSON allocators are taken to succeed.
-/

namespace TrayJS

/-! ## C strings -/

/-- The bytes of a C string, the terminating NUL excluded. -/
abbrev CString := List Nat

/-- The bytes of an ASCII string literal of the source. -/
def ascii (s : String) : CString := s.data.map Char.toNat

/-- The byte `src[i]` of a NUL-terminated string: a byte of the string, the
terminator at `i = strlen src`, and nothing (a read outside the string) for an
index before the first byte or after the terminator. -/
def charAt (src : CString) (i : Int) : Option Nat :=
  if i < 0 then none
  else if i.toNat < src.length then some (src.getD i.toNat 0)
  else if i.toNat = src.length then some 0
  else none

/-! ## Base64 decode (identical tables on both platforms) -/

/-- The string `t` of `initB64`. -/
def b64Alphabet : CString :=
  ascii "ABCDEFGHIJKLMNOPQRSTUVWXYZabcdefghijklmnopqrstuvwxyz0123456789+/"

/-- The array `b64_rev` after `initB64`: `memset(b64_rev, 0x40, 256)` followed by
`b64_rev[t[i]] = i` for `i = 0 .. 63`. -/
def initB64 : List Nat :=
  (List.range 64).foldl (fun rev i => rev.set (b64Alphabet.getD i 0) i) (List.replicate 256 0x40)

/-- The read `b64_rev[(unsigned char)c]`. -/
def b64_rev (c : Nat) : Nat := initB64.getD (c % 256) 0

/-- The value `triple` of one loop iteration of `base64Decode`. -/
def b64Triple (a b c d : Nat) : Nat :=
  (b64_rev a <<< 18) ||| (b64_rev b <<< 12) ||| (b64_rev c <<< 6) ||| b64_rev d

/-- The `for` loop of `base64Decode`: `src` is what remains from index `i` on,
`out` the bytes written so far (so `j = out.length`). -/
def decodeLoop (dLen : Nat) : CString → List Nat → List Nat
  | a :: b :: c :: d :: rest, out =>
    let triple := b64Triple a b c d
    let out := if out.length < dLen then out ++ [(triple >>> 16) &&& 0xFF] else out
    let out := if out.length < dLen then out ++ [(triple >>> 8) &&& 0xFF] else out
    let out := if out.length < dLen then out ++ [triple &&& 0xFF] else out
    decodeLoop dLen rest out
  | _, out => out

/-- What a call of `base64Decode` does. -/
inductive DecodeResult where
  /-- A byte outside `src` (before its first byte) was read. -/
  | outOfBounds
  /-- The call returned `NULL`. -/
  | null
  /-- The call returned the buffer `out`, holding the bytes `bytes`, with `*outLen = outLen`. -/
  | buffer (bytes : List Nat) (outLen : Nat)
  deriving DecidableEq, Repr

/-- The function `base64Decode` of `src/linux/main.c`. -/
def base64Decode (src : CString) : DecodeResult :=
  let len := src.length
  if len % 4 ≠ 0 then .null
  else
    let dLen := (len / 4) * 3
    match charAt src ((len : Int) - 1) with
    | none => .outOfBounds
    | some last =>
      let dLen := if last = 61 then dLen - 1 else dLen
      if len > 1 then
        match charAt src ((len : Int) - 2) with
        | none => .outOfBounds
        | some prev =>
          let dLen := if prev = 61 then dLen - 1 else dLen
          .buffer (decodeLoop dLen src []) dLen
      else
        .buffer (decodeLoop dLen src []) dLen

/-- The function `base64Decode` of `src-win/main.c`: as on Linux, but `src[len-2]`
is read without the `len > 1` test. -/
def base64DecodeWin (src : CString) : DecodeResult :=
  let len := src.length
  if len % 4 ≠ 0 then .null
  else
    let dLen := (len / 4) * 3
    match charAt src ((len : Int) - 1) with
    | none => .outOfBounds
    | some last =>
      let dLen := if last = 61 then dLen - 1 else dLen
      match charAt src ((len : Int) - 2) with
      | none => .outOfBounds
      | some prev =>
        let dLen := if prev = 61 then dLen - 1 else dLen
        .buffer (decodeLoop dLen src []) dLen

/-- The symbol of the base64 alphabet for the 6-bit value `v`. -/
def b64Char (v : Nat) : Nat := b64Alphabet.getD v 0

/-- The standard padded base64 encoding (RFC 4648, section 4) the claims speak of:
three bytes give four symbols, a final group of one or two bytes is padded with `=`. -/
def base64Encode : List Nat → CString
  | x :: y :: z :: rest =>
    b64Char (x / 4) :: b64Char ((x % 4) * 16 + y / 16) ::
      b64Char ((y % 16) * 4 + z / 64) :: b64Char (z % 64) :: base64Encode rest
  | [x, y] => [b64Char (x / 4), b64Char ((x % 4) * 16 + y / 16), b64Char ((y % 16) * 4), 61]
  | [x] => [b64Char (x / 4), b64Char ((x % 4) * 16), 61, 61]
  | [] => []


/-! ## The cJSON tree

`cJSON.h` is included by both `main.c` files and is not among the sources; the parser
`cJSON_Parse` is a parameter of the readers, and the accessors the code calls are
modelled below on trees of this shape. -/

/-- Modelled from the spec: the `cJSON` tree type of `cJSON.h` (not among the sources),
the "structured message" of the spec: the JSON values, an object being the list of its
members in order and an array the list of its elements. -/
inductive Json where
  | null
  | jfalse
  | jtrue
  | number (v : Int)
  | string (valuestring : CString)
  | array (children : List Json)
  | object (members : List (CString × Json))

/-- The `tolower` of the C locale on one byte. -/
def tolower (c : Nat) : Nat := if 65 ≤ c ∧ c ≤ 90 then c + 32 else c

/-- The scan of an object's members for the key `name`, first match first. -/
def lookupMember (name : CString) : List (CString × Json) → Option Json
  | [] => none
  | (key, v) :: rest =>
    if key.map tolower = name.map tolower then some v else lookupMember name rest

/-- Modelled from the spec: `cJSON_GetObjectItem` of `cJSON.h` (not among the sources):
the first member of `object` whose key equals `name` without regard to case; `NULL`
when `object` is `NULL`, has no such member, or is not an object. -/
def cJSON_GetObjectItem (object : Option Json) (name : CString) : Option Json :=
  match object with
  | some (.object members) => lookupMember name members
  | _ => none

/-- Modelled from the spec: `cJSON_GetStringValue` of `cJSON.h` (not among the sources):
the string of a string item, `NULL` for `NULL` and for every other item. -/
def cJSON_GetStringValue (item : Option Json) : Option CString :=
  match item with
  | some (.string s) => some s
  | _ => none

/-- Modelled from the spec: `cJSON_IsTrue` of `cJSON.h` (not among the sources). -/
def cJSON_IsTrue (item : Option Json) : Bool :=
  match item with
  | some .jtrue => true
  | _ => false

/-- Modelled from the spec: `cJSON_IsFalse` of `cJSON.h` (not among the sources). -/
def cJSON_IsFalse (item : Option Json) : Bool :=
  match item with
  | some .jfalse => true
  | _ => false

/-- Modelled from the spec: `cJSON_IsArray` of `cJSON.h` (not among the sources). -/
def cJSON_IsArray (item : Option Json) : Bool :=
  match item with
  | some (.array _) => true
  | _ => false

/-- The child list `item->child` that `cJSON_GetArraySize` counts and
`cJSON_GetArrayItem` indexes: the elements of an array, the member values of an
object, nothing for `NULL` and for the other items. -/
def cJSON_children (item : Option Json) : List Json :=
  match item with
  | some (.array children) => children
  | some (.object members) => members.map Prod.snd
  | _ => []

/-- Modelled from the spec: `cJSON_GetArraySize` of `cJSON.h` (not among the sources). -/
def cJSON_GetArraySize (item : Option Json) : Nat := (cJSON_children item).length

/-- Modelled from the spec: `cJSON_GetArrayItem` of `cJSON.h` (not among the sources). -/
def cJSON_GetArrayItem (item : Option Json) (i : Nat) : Option Json := (cJSON_children item)[i]?

/-! ## The stdin readers -/

/-- The C string that starts at the first byte of `bs`: the bytes before the first NUL. -/
def cstr (bs : List Nat) : CString := bs.takeWhile (· ≠ 0)

/-- The call `memchr(s, c, n)` on the `n` bytes `s`: the offset of the first `c`. -/
def memchr (s : List Nat) (c : Nat) : Option Nat :=
  match s with
  | [] => none
  | b :: rest => if b = c then some 0 else (memchr rest c).map (· + 1)

/-- A message in the queue of the window `gHwnd`. -/
inductive WinMsg where
  /-- `PostMessage(gHwnd, WM_STDIN_CMD, 0, (LPARAM)m)`. -/
  | stdinCmd (m : Json)
  /-- `PostMessage(gHwnd, WM_CLOSE, 0, 0)`. -/
  | close

/-- The reader thread of `src-win/main.c` as observed from outside: the carry buffer
`buf[0 .. bufLen)`, the strings handed to `cJSON_Parse` so far and the messages posted
so far, both in order. -/
structure WinReader where
  buf : List Nat
  parsed : List CString
  posted : List WinMsg

/-- The inner `while ((nl = memchr(s, '\n', ...)))` loop of `stdinReaderThread`, from the
position `s` on: returns the bytes left after the last newline. -/
def scanLines (parse : CString → Option Json) (s : List Nat) (parsed : List CString)
    (posted : List WinMsg) : WinReader :=
  match h : memchr s 10 with
  | none => { buf := s, parsed := parsed, posted := posted }
  | some k =>
    let line := cstr (s.take k)
    let posted := match parse line with
      | some m => posted ++ [WinMsg.stdinCmd m]
      | none => posted
    scanLines parse (s.drop (k + 1)) (parsed ++ [line]) posted
termination_by s.length
decreasing_by
  have bound : ∀ (t : List Nat) (j : Nat), memchr t 10 = some j → j < t.length := by
    intro t
    induction t with
    | nil => intro j hj; simp [memchr] at hj
    | cons b rest ih =>
      intro j hj
      simp only [memchr] at hj
      split at hj
      · cases hj; simp
      · cases hm : memchr rest 10 with
        | none => simp [hm] at hj
        | some i =>
          simp only [hm, Option.map_some', Option.some.injEq] at hj
          have := ih i hm
          simp only [List.length_cons]
          omega
  have := bound s k h
  simp only [List.length_drop]
  omega

/-- The function `stdinReaderThread` of `src-win/main.c`. `reads` lists what the
successive `ReadFile` calls deliver (each at most `sizeof(chunk)` bytes); the loop ends
at the first call that fails (the end of the list) or delivers no byte. -/
def stdinReaderThread (parse : CString → Option Json) : List (List Nat) → WinReader → WinReader
  | [], r => { r with posted := r.posted ++ [WinMsg.close] }
  | chunk :: reads, r =>
    if chunk.length > 0 then
      stdinReaderThread parse reads (scanLines parse (r.buf ++ chunk) r.parsed r.posted)
    else { r with posted := r.posted ++ [WinMsg.close] }

/-- The state of the reader thread when it starts. -/
def WinReader.init : WinReader := { buf := [], parsed := [], posted := [] }

/-- An idle source queued on the GTK main loop. -/
inductive IdleSource where
  /-- `g_idle_add(processCmd, m)`. -/
  | processCmd (m : Json)
  /-- `g_idle_add((GSourceFunc)gtk_main_quit, NULL)`. -/
  | mainQuit

/-- The call `getline(&line, &cap, stdin)` on what is left of the stream: the next line
with its newline, or the unterminated rest at the end of the stream, and what is left
after it; `none` is the return value `-1` at the end of the stream. -/
def getline : List Nat → Option (List Nat × List Nat)
  | [] => none
  | b :: bs =>
    if b = 10 then some ([b], bs)
    else
      match getline bs with
      | some (line, rest) => some (b :: line, rest)
      | none => some ([b], [])

/-- The reader thread of `src/linux/main.c` as observed from outside. -/
structure LinuxReader where
  parsed : List CString
  idle : List IdleSource

/-- The function `stdinReader` of `src/linux/main.c` on the bytes of standard input. -/
def stdinReader (parse : CString → Option Json) (stream : List Nat) (r : LinuxReader) :
    LinuxReader :=
  match h : getline stream with
  | none => { r with idle := r.idle ++ [IdleSource.mainQuit] }
  | some (line, rest) =>
    let line := if line.getLast? = some 10 then line.dropLast else line
    if line.length = 0 then stdinReader parse rest r
    else
      let idle := match parse (cstr line) with
        | some m => r.idle ++ [IdleSource.processCmd m]
        | none => r.idle
      stdinReader parse rest { parsed := r.parsed ++ [cstr line], idle := idle }
termination_by stream.length
decreasing_by
  all_goals
    have bound : ∀ (t l r : List Nat), getline t = some (l, r) → r.length < t.length := by
      intro t
      induction t with
      | nil => intro l r hg; simp [getline] at hg
      | cons b bs ih =>
        intro l r hg
        simp only [getline] at hg
        split at hg
        · cases hg; simp
        · cases hm : getline bs with
          | none =>
            simp only [hm, Option.some.injEq, Prod.mk.injEq] at hg
            rw [← hg.2]; simp
          | some p =>
            obtain ⟨l1, r1⟩ := p
            simp only [hm, Option.some.injEq, Prod.mk.injEq] at hg
            have := ih l1 r1 hm
            rw [← hg.2]
            simp only [List.length_cons]
            omega
    exact bound stream _ rest h

/-- The state of the Linux reader thread when it starts. -/
def LinuxReader.init : LinuxReader := { parsed := [], idle := [] }

/-- The byte stream made of the given lines, each followed by its newline. -/
def streamOfLines : List (List Nat) → List Nat
  | [] => []
  | line :: lines => line ++ 10 :: streamOfLines lines

/-- The bytes of a sequence of reads, in order. -/
def bytesOfReads : List (List Nat) → List Nat
  | [] => []
  | chunk :: reads => chunk ++ bytesOfReads reads

/-- The messages the given lines parse to, in order, a line `cJSON_Parse` rejects giving
none. -/
def parsedMessages (parse : CString → Option Json) (lines : List (List Nat)) : List Json :=
  lines.filterMap (fun line => parse (cstr line))

/-- A stand-in for `cJSON_Parse` used to run the readers on concrete input: it accepts
exactly the line `1` (as `true`) and the line `0` (as `false`). -/
def toyParse (s : CString) : Option Json :=
  if s = ascii "1" then some Json.jtrue
  else if s = ascii "0" then some Json.jfalse
  else none

/-! ## Output -/

/-- One line written by `emit(method, params)`: the object
`\x7b"method": method, "params": params\x7d`, the member `params` being left out when the
argument is `NULL`. -/
structure Emitted where
  method : CString
  params : Option Json

/-- The line `emit("clicked", p)` writes for `p = \x7b"id": id\x7d`. -/
def clicked (id : CString) : Emitted :=
  { method := ascii "clicked", params := some (Json.object [(ascii "id", Json.string id)]) }

/-! ## The Windows menu and its command-id registry -/

/-- The constant `MAX_MENU_ITEMS`. -/
def MAX_MENU_ITEMS : Nat := 4096

/-- One entry appended to a native menu by `AppendMenuW`. The title is kept as the
UTF-8 string that is converted for the call. -/
inductive WinMenuItem where
  /-- `AppendMenuW(menu, MF_SEPARATOR, 0, NULL)`. -/
  | separator
  /-- `AppendMenuW(menu, MF_POPUP | MF_STRING, (UINT_PTR)sub, wtitle)`. -/
  | popup (title : CString) (sub : List WinMenuItem)
  /-- `AppendMenuW(menu, flags, cmdId, wtitle)` with `MF_GRAYED`, `MF_CHECKED` in `flags`. -/
  | command (grayed checked : Bool) (cmdId : Nat) (title : CString)

/-- The registry globals: the entries `gMenuIdMap[0 .. gMenuIdCount)` as pairs
`(cmdId, id)`, and `gNextCmdId`. `gMenuIdCount` is the length of the list. -/
structure Registry where
  gMenuIdMap : List (Nat × CString)
  gNextCmdId : Nat

/-- The count `gMenuIdCount`. -/
def Registry.gMenuIdCount (reg : Registry) : Nat := reg.gMenuIdMap.length

/-- The string left in a zeroed `char id[256]` by `strncpy(id, itemId, 255)`. -/
def strncpy255 (itemId : CString) : CString := itemId.take 255

/-- The registry part of the leaf branch of `buildMenuItems` (Windows):
`cmdId = gNextCmdId++` on a `UINT`, and the entry is stored while
`gMenuIdCount < MAX_MENU_ITEMS`. -/
def registerLeaf (reg : Registry) (itemId : CString) : Registry :=
  { gNextCmdId := (reg.gNextCmdId + 1) % 2 ^ 32,
    gMenuIdMap :=
      if reg.gMenuIdCount < MAX_MENU_ITEMS then
        reg.gMenuIdMap ++ [(reg.gNextCmdId, strncpy255 itemId)]
      else reg.gMenuIdMap }

/-- The function `buildMenuItems` of `src-win/main.c` on the children of `items`, given
the registry globals: the entries appended to `menu`, and the registry afterwards. -/
def buildMenuItemsWin (items : List Json) (reg : Registry) : List WinMenuItem × Registry :=
  match items with
  | [] => ([], reg)
  | cfg :: rest =>
    if cJSON_IsTrue (cJSON_GetObjectItem (some cfg) (ascii "separator")) then
      let r := buildMenuItemsWin rest reg
      (WinMenuItem.separator :: r.1, r.2)
    else
      let title := (cJSON_GetStringValue (cJSON_GetObjectItem (some cfg) (ascii "title"))).getD []
      let itemId := (cJSON_GetStringValue (cJSON_GetObjectItem (some cfg) (ascii "id"))).getD []
      let jChildren := cJSON_GetObjectItem (some cfg) (ascii "items")
      if cJSON_IsArray jChildren = true ∧ cJSON_GetArraySize jChildren > 0 then
        let sub := buildMenuItemsWin (cJSON_children jChildren) reg
        let r := buildMenuItemsWin rest sub.2
        (WinMenuItem.popup title sub.1 :: r.1, r.2)
      else
        let cmdId := reg.gNextCmdId
        let grayed := cJSON_IsFalse (cJSON_GetObjectItem (some cfg) (ascii "enabled"))
        let checked := cJSON_IsTrue (cJSON_GetObjectItem (some cfg) (ascii "checked"))
        let r := buildMenuItemsWin rest (registerLeaf reg itemId)
        (WinMenuItem.command grayed checked cmdId title :: r.1, r.2)
termination_by sizeOf items
decreasing_by
  all_goals simp_wf
  rename_i hsub
  have key : ∀ (ms : List (CString × Json)) (name : CString) (v : Json),
      lookupMember name ms = some v → sizeOf v < sizeOf ms := by
    intro ms name v
    induction ms with
    | nil => intro h; simp [lookupMember] at h
    | cons kv tl ih =>
      obtain ⟨k, w⟩ := kv
      intro h
      simp only [lookupMember] at h
      split at h
      · cases h; simp; omega
      · have := ih h; simp; omega
  have h1 : cJSON_IsArray (cJSON_GetObjectItem (some cfg) (ascii "items")) = true := hsub.1
  cases cfg with
  | object ms =>
    simp only [cJSON_GetObjectItem] at h1 ⊢
    cases hl : lookupMember (ascii "items") ms with
    | none => rw [hl] at h1; simp [cJSON_IsArray] at h1
    | some v =>
      have hv := key ms _ v hl
      rw [hl] at h1
      cases v <;> simp [cJSON_IsArray] at h1
      simp only [cJSON_children, Json.object.sizeOf_spec]
      simp only [Json.array.sizeOf_spec] at hv
      omega
  | _ => simp [cJSON_GetObjectItem, cJSON_IsArray] at h1

/-- The string ids of the clickable leaves of an item list in pre-order (parent before
children, siblings left to right), as the spec describes the traversal: a separator
contributes nothing, a node with a non-empty `items` array is a submenu and contributes
the leaves below it, every other node is a leaf and contributes its `id` (the empty
string when it has none). -/
def preorderLeafIds (items : List Json) : List CString :=
  match items with
  | [] => []
  | cfg :: rest =>
    if cJSON_IsTrue (cJSON_GetObjectItem (some cfg) (ascii "separator")) then
      preorderLeafIds rest
    else
      let jChildren := cJSON_GetObjectItem (some cfg) (ascii "items")
      if cJSON_IsArray jChildren = true ∧ cJSON_GetArraySize jChildren > 0 then
        preorderLeafIds (cJSON_children jChildren) ++ preorderLeafIds rest
      else
        (cJSON_GetStringValue (cJSON_GetObjectItem (some cfg) (ascii "id"))).getD []
          :: preorderLeafIds rest
termination_by sizeOf items
decreasing_by
  all_goals simp_wf
  rename_i hsub
  have key : ∀ (ms : List (CString × Json)) (name : CString) (v : Json),
      lookupMember name ms = some v → sizeOf v < sizeOf ms := by
    intro ms name v
    induction ms with
    | nil => intro h; simp [lookupMember] at h
    | cons kv tl ih =>
      obtain ⟨k, w⟩ := kv
      intro h
      simp only [lookupMember] at h
      split at h
      · cases h; simp; omega
      · have := ih h; simp; omega
  have h1 : cJSON_IsArray (cJSON_GetObjectItem (some cfg) (ascii "items")) = true := hsub.1
  cases cfg with
  | object ms =>
    simp only [cJSON_GetObjectItem] at h1 ⊢
    cases hl : lookupMember (ascii "items") ms with
    | none => rw [hl] at h1; simp [cJSON_IsArray] at h1
    | some v =>
      have hv := key ms _ v hl
      rw [hl] at h1
      cases v <;> simp [cJSON_IsArray] at h1
      simp only [cJSON_children, Json.object.sizeOf_spec]
      simp only [Json.array.sizeOf_spec] at hv
      omega
  | _ => simp [cJSON_GetObjectItem, cJSON_IsArray] at h1

/-- The command ids of the `command` entries of a native menu, in pre-order. -/
def menuCmdIds : List WinMenuItem → List Nat
  | [] => []
  | WinMenuItem.separator :: rest => menuCmdIds rest
  | WinMenuItem.popup _ sub :: rest => menuCmdIds sub ++ menuCmdIds rest
  | WinMenuItem.command _ _ cmdId _ :: rest => cmdId :: menuCmdIds rest

/-! ## The GTK menu -/

/-- One child appended to a GTK menu shell. -/
inductive GtkMenuItem where
  /-- `gtk_separator_menu_item_new()`. -/
  | separator
  /-- A menu item with a label and nothing else: no `trayjs-id` data, no handler. -/
  | plain (label : CString) (sensitive : Bool)
  /-- An item of `buildMenuItems` without submenu, its `activate` signal connected to
  `onActivate`. -/
  | leaf (label : CString) (checked : Bool) (trayjsId : CString) (sensitive : Bool)
  /-- An item of `buildMenuItems` with the submenu `sub`. -/
  | submenu (label : CString) (checked : Bool) (trayjsId : CString) (sensitive : Bool)
      (sub : List GtkMenuItem)

/-- The function `buildMenuItems` of `src/linux/main.c` on the children of `items`: the
widgets appended to `shell`. -/
def buildMenuItems (items : List Json) : List GtkMenuItem :=
  match items with
  | [] => []
  | cfg :: rest =>
    if cJSON_IsTrue (cJSON_GetObjectItem (some cfg) (ascii "separator")) then
      GtkMenuItem.separator :: buildMenuItems rest
    else
      let title := (cJSON_GetStringValue (cJSON_GetObjectItem (some cfg) (ascii "title"))).getD []
      let itemId := (cJSON_GetStringValue (cJSON_GetObjectItem (some cfg) (ascii "id"))).getD []
      let jChildren := cJSON_GetObjectItem (some cfg) (ascii "items")
      let checked := cJSON_IsTrue (cJSON_GetObjectItem (some cfg) (ascii "checked"))
      let sensitive := !cJSON_IsFalse (cJSON_GetObjectItem (some cfg) (ascii "enabled"))
      if cJSON_IsArray jChildren = true ∧ cJSON_GetArraySize jChildren > 0 then
        GtkMenuItem.submenu title checked itemId sensitive
            (buildMenuItems (cJSON_children jChildren))
          :: buildMenuItems rest
      else
        GtkMenuItem.leaf title checked itemId sensitive :: buildMenuItems rest
termination_by sizeOf items
decreasing_by
  all_goals simp_wf
  rename_i hsub
  have key : ∀ (ms : List (CString × Json)) (name : CString) (v : Json),
      lookupMember name ms = some v → sizeOf v < sizeOf ms := by
    intro ms name v
    induction ms with
    | nil => intro h; simp [lookupMember] at h
    | cons kv tl ih =>
      obtain ⟨k, w⟩ := kv
      intro h
      simp only [lookupMember] at h
      split at h
      · cases h; simp; omega
      · have := ih h; simp; omega
  have h1 : cJSON_IsArray (cJSON_GetObjectItem (some cfg) (ascii "items")) = true := hsub.1
  cases cfg with
  | object ms =>
    simp only [cJSON_GetObjectItem] at h1 ⊢
    cases hl : lookupMember (ascii "items") ms with
    | none => rw [hl] at h1; simp [cJSON_IsArray] at h1
    | some v =>
      have hv := key ms _ v hl
      rw [hl] at h1
      cases v <;> simp [cJSON_IsArray] at h1
      simp only [cJSON_children, Json.object.sizeOf_spec]
      simp only [Json.array.sizeOf_spec] at hv
      omega
  | _ => simp [cJSON_GetObjectItem, cJSON_IsArray] at h1

/-! ## The command dispatchers -/

/-- The ways a handler can leave defined behaviour. -/
inductive Fault where
  /-- A `NULL` pointer was handed to a routine that reads a string from it
  (`strcmp`, `strlen`). -/
  | nullString
  /-- A byte outside a string was read. -/
  | outOfBounds

/-- The status of the indicator (`app_indicator_set_status`). -/
inductive IndicatorStatus where
  | active
  | passive

/-- The tray state of the Linux helper: the globals of `src/linux/main.c`, what the
indicator was last told, the files written into `gIconDir`, whether `gtk_main_quit`
has been called, and the lines written to standard output. -/
structure LinuxState where
  gMenu : List GtkMenuItem
  gBuildingMenu : Bool
  gIconSeq : Nat
  iconName : CString
  iconFiles : List (CString × List Nat)
  title : CString
  status : IndicatorStatus
  mainQuit : Bool
  out : List Emitted

/-- The decimal digits `%d` prints for a non-negative number. -/
def decimal (n : Nat) : CString := (Nat.toDigits 10 n).map Char.toNat

/-- The icon name of `processCmd`: `name` after `.png` is cut off. -/
def iconNameOf (seq : Nat) : CString := ascii "trayjs-icon-" ++ decimal seq

/-- The file name `snprintf(name, sizeof(name), "trayjs-icon-%d.png", seq)` gives. -/
def iconFileOf (seq : Nat) : CString := iconNameOf seq ++ ascii ".png"

/-- The placeholder `ph` of `processCmd` and `main`: label `""`, insensitive. -/
def placeholder : GtkMenuItem := GtkMenuItem.plain [] false

/-- The function `processCmd` of `src/linux/main.c` on the parsed message `m`. -/
def processCmd (m : Json) (s : LinuxState) : Except Fault LinuxState :=
  let meth := cJSON_GetStringValue (cJSON_GetObjectItem (some m) (ascii "method"))
  let p := cJSON_GetObjectItem (some m) (ascii "params")
  match meth with
  | none => .ok s
  | some meth =>
    if meth = ascii "setMenu" then
      let items := cJSON_GetObjectItem p (ascii "items")
      let children :=
        match items with
        | some _ => buildMenuItems (cJSON_children items)
        | none => []
      let newMenu := if children.isEmpty then [placeholder] else children
      .ok { s with gMenu := newMenu, gBuildingMenu := false }
    else if meth = ascii "setIcon" then
      match cJSON_GetStringValue (cJSON_GetObjectItem p (ascii "base64")) with
      | none => .ok s
      | some b64 =>
        match base64Decode b64 with
        | .outOfBounds => .error Fault.outOfBounds
        | .null => .ok s
        | .buffer d len =>
          let seq := s.gIconSeq + 1
          .ok { s with
            gIconSeq := seq,
            iconFiles := s.iconFiles ++ [(iconFileOf seq, d.take len)],
            iconName := iconNameOf seq }
    else if meth = ascii "setTooltip" then
      match cJSON_GetStringValue (cJSON_GetObjectItem p (ascii "text")) with
      | some text => .ok { s with title := text }
      | none => .ok s
    else if meth = ascii "quit" then
      .ok { s with status := IndicatorStatus.passive, mainQuit := true }
    else .ok s

/-- The idle callback `gtk_main_quit` that `stdinReader` queues at the end of input. -/
def gtkMainQuit (s : LinuxState) : LinuxState := { s with mainQuit := true }

/-- Running one idle source on the GTK main thread. -/
def runIdle (src : IdleSource) (s : LinuxState) : Except Fault LinuxState :=
  match src with
  | IdleSource.processCmd m => processCmd m s
  | IdleSource.mainQuit => .ok (gtkMainQuit s)

/-- The handler `onActivate` of `src/linux/main.c` for an item whose `trayjs-id` data is
`id` (`none`: no such data). -/
def onActivate (id : Option CString) (s : LinuxState) : LinuxState :=
  if s.gBuildingMenu then s
  else
    match id with
    | some (c :: cs) => { s with out := s.out ++ [clicked (c :: cs)] }
    | _ => s

/-- The Windows routines whose results the dispatcher uses. -/
structure WinApi where
  /-- The icon `LoadImageW` yields for a temporary file holding the given bytes; `none`
  when `CreateFileW` or `LoadImageW` fails. -/
  loadIcon : List Nat → Option Nat
  /-- The contents of `gNid.szTip` after
  `MultiByteToWideChar(CP_UTF8, 0, text, -1, gNid.szTip, MAX_TOOLTIP)`, given the pointer
  `text` (`none` for `NULL`) and the contents before the call. -/
  toTip : Option CString → List Nat → List Nat

/-- The tray state of the Windows helper: the globals of `src-win/main.c` (the menu
`gMenu` as the entries appended to it, the registry, `gIcon`, `gNid.szTip`), whether the
notification icon is shown, whether `PostQuitMessage` has been called, and the lines
written to standard output. -/
structure WinState where
  gMenu : List WinMenuItem
  reg : Registry
  gIcon : Option Nat
  szTip : List Nat
  shown : Bool
  quitPosted : Bool
  out : List Emitted

/-- The registry after `gMenuIdCount = 0; gNextCmdId = 1;`. -/
def Registry.reset : Registry := { gMenuIdMap := [], gNextCmdId := 1 }

/-- The case `WM_STDIN_CMD` of `WndProc` on the parsed message `m`. -/
def wmStdinCmd (api : WinApi) (m : Json) (s : WinState) : Except Fault WinState :=
  let meth := cJSON_GetStringValue (cJSON_GetObjectItem (some m) (ascii "method"))
  let p := cJSON_GetObjectItem (some m) (ascii "params")
  match meth with
  | none => .error Fault.nullString
  | some meth =>
    if meth = ascii "setMenu" then
      let built :=
        buildMenuItemsWin (cJSON_children (cJSON_GetObjectItem p (ascii "items"))) Registry.reset
      .ok { s with gMenu := built.1, reg := built.2 }
    else if meth = ascii "setIcon" then
      match cJSON_GetStringValue (cJSON_GetObjectItem p (ascii "base64")) with
      | none => .error Fault.nullString
      | some b64 =>
        match base64DecodeWin b64 with
        | .outOfBounds => .error Fault.outOfBounds
        | .null => .ok s
        | .buffer d len =>
          match api.loadIcon (d.take len) with
          | some n => .ok { s with gIcon := some n }
          | none => .ok s
    else if meth = ascii "setTooltip" then
      .ok { s with
        szTip := api.toTip (cJSON_GetStringValue (cJSON_GetObjectItem p (ascii "text"))) s.szTip }
    else .ok s

/-- The value `LOWORD(wParam)`. -/
def LOWORD (wParam : Nat) : Nat := wParam % 65536

/-- The scan of `WM_COMMAND`: the first entry of the registry whose `cmdId` equals
`LOWORD(wParam)`. -/
def resolve (reg : Registry) (wParam : Nat) : Option CString :=
  (reg.gMenuIdMap.find? (fun e => e.1 = LOWORD wParam)).map Prod.snd

/-- The case `WM_COMMAND` of `WndProc`. -/
def wmCommand (wParam : Nat) (s : WinState) : WinState :=
  match resolve s.reg wParam with
  | some id => { s with out := s.out ++ [clicked id] }
  | none => s

/-- The case `WM_DESTROY` of `WndProc`. -/
def wmDestroy (s : WinState) : WinState := { s with shown := false, quitPosted := true }

/-! ## Auxiliary definitions used in the statements and proofs -/

/-- The increment `gNextCmdId++` on a `UINT`. -/
def bumpCmdId (c : Nat) : Nat := (c + 1) % 2 ^ 32

/-- The command ids handed out for `n` successive leaves when `gNextCmdId` is `c`. -/
def issuedIds (c : Nat) : Nat → List Nat
  | 0 => []
  | n + 1 => c :: issuedIds (bumpCmdId c) n

/-- The message `\x7b"method": "setMenu", "params": \x7b"items": items\x7d\x7d`. -/
def setMenuMsg (items : List Json) : Json :=
  Json.object [(ascii "method", Json.string (ascii "setMenu")),
    (ascii "params", Json.object [(ascii "items", Json.array items)])]

/-- The message `\x7b"method": "setIcon", "params": \x7b"base64": b64\x7d\x7d`. -/
def setIconMsg (b64 : CString) : Json :=
  Json.object [(ascii "method", Json.string (ascii "setIcon")),
    (ascii "params", Json.object [(ascii "base64", Json.string b64)])]

/-- The message `\x7b"method": "quit"\x7d`. -/
def quitMsg : Json := Json.object [(ascii "method", Json.string (ascii "quit"))]

/-- A menu item `\x7b"title": title, "id": id\x7d`. -/
def leafItem (title id : CString) : Json :=
  Json.object [(ascii "title", Json.string title), (ascii "id", Json.string id)]

/-- The item list of the end-to-end scenario of the spec:
`[\x7b"title":"A","id":"a"\x7d, \x7b"separator":true\x7d,
  \x7b"title":"Sub","items":[\x7b"title":"B","id":"b"\x7d]\x7d]`. -/
def scenarioItems : List Json :=
  [ leafItem (ascii "A") (ascii "a"),
    Json.object [(ascii "separator", Json.jtrue)],
    Json.object [(ascii "title", Json.string (ascii "Sub")),
      (ascii "items", Json.array [leafItem (ascii "B") (ascii "b")])] ]

/-- The field `method` of a message as `processCmd` and `WndProc` read it. -/
def methodOf (m : Json) : Option CString :=
  cJSON_GetStringValue (cJSON_GetObjectItem (some m) (ascii "method"))

/-- The member `name` of the field `params` of a message, as the handlers read it. -/
def paramOf (m : Json) (name : CString) : Option Json :=
  cJSON_GetObjectItem (cJSON_GetObjectItem (some m) (ascii "params")) name

/-- The menu `processCmd` makes live for the value `items` of the field of that name. -/
def linuxMenuOf (items : Option Json) : List GtkMenuItem :=
  let children :=
    match items with
    | some _ => buildMenuItems (cJSON_children items)
    | none => []
  if children.isEmpty then [placeholder] else children

/-- A tray state of the Linux helper used to run `processCmd` on concrete input: one
menu entry, the default icon, no output yet. -/
def sampleLinuxState : LinuxState :=
  { gMenu := [GtkMenuItem.leaf (ascii "Open") false (ascii "open") true],
    gBuildingMenu := false,
    gIconSeq := 0,
    iconName := ascii "trayjs-default",
    iconFiles := [],
    title := ascii "Tray",
    status := IndicatorStatus.active,
    mainQuit := false,
    out := [] }

/-- A tray state of the Windows helper used to run `WndProc` on concrete input: one
menu entry with its registry entry, no output yet. -/
def sampleWinState : WinState :=
  { gMenu := [WinMenuItem.command false false 1 (ascii "Open")],
    reg := { gMenuIdMap := [(1, ascii "open")], gNextCmdId := 2 },
    gIcon := some 1,
    szTip := ascii "Tray",
    shown := true,
    quitPosted := false,
    out := [] }

/-- Windows routines used to run `WndProc` on concrete input: no image loads, and the
tooltip buffer takes the bytes of the text (it is left alone for `NULL`). -/
def sampleWinApi : WinApi :=
  { loadIcon := fun _ => none,
    toTip := fun text old => text.getD old }

/-- An item list of `n` leaves, each `\x7b"title": "", "id": "x"\x7d`. -/
def manyLeaves (n : Nat) : List Json := List.replicate n (leafItem [] (ascii "x"))

/-- A string id of 256 bytes, one more than `strncpy(id, itemId, 255)` copies. -/
def longId : CString := List.replicate 256 97

/-- The message `\x7b"method": "setMenu"\x7d`, without `params`. -/
def setMenuNoParams : Json := Json.object [(ascii "method", Json.string (ascii "setMenu"))]

/-- The message `\x7b"method": "setIcon"\x7d`, without `params`. -/
def setIconNoParams : Json := Json.object [(ascii "method", Json.string (ascii "setIcon"))]

/-- The message `\x7b"method": "setTooltip", "params": \x7b"text": 5\x7d\x7d`, whose `text`
is not a string. -/
def setTooltipNumber : Json :=
  Json.object [(ascii "method", Json.string (ascii "setTooltip")),
    (ascii "params", Json.object [(ascii "text", Json.number 5)])]

/-- The parsed line `\x7b\x7d`: an object without the member `method`. -/
def emptyObjectMsg : Json := Json.object []

/-- An item list of 65537 leaves: one leaf with id `first`, then 65536 leaves `x`. -/
def overflowItems : List Json := leafItem [] (ascii "first") :: manyLeaves 65536

/-! ## Base64: the decode table -/

set_option maxRecDepth 100000 in
theorem initB64_getD_le : ∀ i < 256, initB64.getD i 0 ≤ 64 := by decide

theorem b64_rev_le (c : Nat) : b64_rev c ≤ 64 :=
  initB64_getD_le _ (Nat.mod_lt _ (by decide))

set_option maxRecDepth 100000 in
theorem b64_rev_b64Char : ∀ v < 64, b64_rev (b64Char v) = v := by decide

set_option maxRecDepth 100000 in
theorem b64Char_ne_pad : ∀ v < 64, b64Char v ≠ 61 := by decide

theorem b64_rev_pad : b64_rev 61 = 64 := by decide

/-! ## Base64: the bit arithmetic of one group -/

theorem byte_and (n : Nat) : n &&& 0xFF = n % 256 := by
  have := Nat.and_pow_two_sub_one_eq_mod n 8
  simpa using this

theorem or_pack (p q r s : Nat) (hq : q < 64) (hr : r < 64) (hs : s < 64) :
    (p <<< 18) ||| (q <<< 12) ||| (r <<< 6) ||| s = p * 262144 + q * 4096 + r * 64 + s := by
  have h1 : 2 ^ 6 * r ||| s = 2 ^ 6 * r + s := (Nat.mul_add_lt_is_or (by omega) r).symm
  have h2 : 2 ^ 12 * q ||| (2 ^ 6 * r + s) = 2 ^ 12 * q + (2 ^ 6 * r + s) :=
    (Nat.mul_add_lt_is_or (by omega) q).symm
  have h3 : 2 ^ 18 * p ||| (2 ^ 12 * q + (2 ^ 6 * r + s))
      = 2 ^ 18 * p + (2 ^ 12 * q + (2 ^ 6 * r + s)) :=
    (Nat.mul_add_lt_is_or (by omega) p).symm
  rw [Nat.or_assoc, Nat.or_assoc, Nat.shiftLeft_eq, Nat.shiftLeft_eq, Nat.shiftLeft_eq,
    Nat.mul_comm r, Nat.mul_comm q, Nat.mul_comm p, h1, h2, h3]
  omega

theorem or_pack_pad1 (p q r : Nat) (hq : q < 64) (hr : r < 64) (h4 : r % 4 = 0) :
    (p <<< 18) ||| (q <<< 12) ||| (r <<< 6) ||| 64 = p * 262144 + q * 4096 + r * 64 + 64 := by
  have e : (p <<< 18) ||| (q <<< 12) ||| (r <<< 6) = p * 262144 + q * 4096 + r * 64 := by
    have := or_pack p q r 0 hq hr (by omega)
    rw [Nat.or_zero, Nat.add_zero] at this
    exact this
  rw [e]
  have : p * 262144 + q * 4096 + r * 64 = 2 ^ 8 * (p * 1024 + q * 16 + r / 4) := by omega
  rw [this, ← Nat.mul_add_lt_is_or (by omega)]

theorem or_pack_pad2 (p q : Nat) (hq : q < 64) (h16 : q % 16 = 0) :
    (p <<< 18) ||| (q <<< 12) ||| (64 <<< 6) ||| 64 = p * 262144 + q * 4096 + 4160 := by
  have e : (p <<< 18) ||| (q <<< 12) = p * 262144 + q * 4096 := by
    have := or_pack p q 0 0 hq (by omega) (by omega)
    rw [Nat.zero_shiftLeft, Nat.or_zero, Nat.or_zero, Nat.zero_mul, Nat.add_zero] at this
    exact this
  have c : (64 <<< 6 ||| 64 : Nat) = 4160 := by decide
  rw [Nat.or_assoc, c, e]
  have : p * 262144 + q * 4096 = 2 ^ 16 * (p * 4 + q / 16) := by omega
  rw [this, ← Nat.mul_add_lt_is_or (by omega)]

theorem b64Triple_full (x y z : Nat) (hx : x < 256) (hy : y < 256) (hz : z < 256) :
    b64Triple (b64Char (x / 4)) (b64Char ((x % 4) * 16 + y / 16))
      (b64Char ((y % 16) * 4 + z / 64)) (b64Char (z % 64)) = x * 65536 + y * 256 + z := by
  unfold b64Triple
  rw [b64_rev_b64Char _ (by omega), b64_rev_b64Char _ (by omega),
    b64_rev_b64Char _ (by omega), b64_rev_b64Char _ (by omega),
    or_pack _ _ _ _ (by omega) (by omega) (by omega)]
  omega

theorem b64Triple_two (x y : Nat) (hx : x < 256) (hy : y < 256) :
    b64Triple (b64Char (x / 4)) (b64Char ((x % 4) * 16 + y / 16))
      (b64Char ((y % 16) * 4)) 61 = x * 65536 + y * 256 + 64 := by
  unfold b64Triple
  rw [b64_rev_b64Char _ (by omega), b64_rev_b64Char _ (by omega),
    b64_rev_b64Char _ (by omega), b64_rev_pad,
    or_pack_pad1 _ _ _ (by omega) (by omega) (by omega)]
  omega

theorem b64Triple_one (x : Nat) (hx : x < 256) :
    b64Triple (b64Char (x / 4)) (b64Char ((x % 4) * 16)) 61 61 = x * 65536 + 4160 := by
  unfold b64Triple
  rw [b64_rev_b64Char _ (by omega), b64_rev_b64Char _ (by omega), b64_rev_pad,
    or_pack_pad2 _ _ (by omega) (by omega)]
  omega

/-! ## Base64: decoding an encoding -/

theorem decodeLoop_encode (B : List Nat) :
    ∀ out : List Nat, (∀ b ∈ B, b < 256) →
      decodeLoop (out.length + B.length) (base64Encode B) out = out ++ B := by
  induction B using base64Encode.induct with
  | case1 x y z rest ih =>
    intro out hB
    have hx : x < 256 := hB x (by simp)
    have hy : y < 256 := hB y (by simp)
    have hz : z < 256 := hB z (by simp)
    have hrest : ∀ b ∈ rest, b < 256 := fun b hb => hB b (by simp [hb])
    have e := ih (out ++ [x, y, z]) hrest
    have hl : (out ++ [x, y, z]).length + rest.length
        = out.length + (x :: y :: z :: rest).length := by
      simp only [List.length_append, List.length_cons, List.length_nil]; omega
    rw [hl] at e
    simp only [base64Encode, decodeLoop, b64Triple_full x y z hx hy hz,
      Nat.shiftRight_eq_div_pow, byte_and]
    have b0 : (x * 65536 + y * 256 + z) / 2 ^ 16 % 256 = x := by omega
    have b1 : (x * 65536 + y * 256 + z) / 2 ^ 8 % 256 = y := by omega
    have b2 : (x * 65536 + y * 256 + z) % 256 = z := by omega
    rw [b0, b1, b2]
    have c0 : out.length < out.length + (x :: y :: z :: rest).length := by simp
    rw [if_pos c0]
    have c1 : (out ++ [x]).length < out.length + (x :: y :: z :: rest).length := by simp
    rw [if_pos c1]
    have c2 : ((out ++ [x]) ++ [y]).length < out.length + (x :: y :: z :: rest).length := by
      simp
    rw [if_pos c2]
    simpa using e
  | case2 x y =>
    intro out hB
    have hx : x < 256 := hB x (by simp)
    have hy : y < 256 := hB y (by simp)
    simp only [base64Encode, decodeLoop, b64Triple_two x y hx hy,
      Nat.shiftRight_eq_div_pow, byte_and]
    have b0 : (x * 65536 + y * 256 + 64) / 2 ^ 16 % 256 = x := by omega
    have b1 : (x * 65536 + y * 256 + 64) / 2 ^ 8 % 256 = y := by omega
    rw [b0, b1]
    have c0 : out.length < out.length + [x, y].length := by simp
    rw [if_pos c0]
    have c1 : (out ++ [x]).length < out.length + [x, y].length := by simp
    rw [if_pos c1]
    have c2 : ¬ ((out ++ [x]) ++ [y]).length < out.length + [x, y].length := by simp
    rw [if_neg c2]
    simp
  | case3 x =>
    intro out hB
    have hx : x < 256 := hB x (by simp)
    simp only [base64Encode, decodeLoop, b64Triple_one x hx,
      Nat.shiftRight_eq_div_pow, byte_and]
    have b0 : (x * 65536 + 4160) / 2 ^ 16 % 256 = x := by omega
    rw [b0]
    have c0 : out.length < out.length + [x].length := by simp
    rw [if_pos c0]
    have c1 : ¬ (out ++ [x]).length < out.length + [x].length := by simp
    rw [if_neg c1, if_neg c1]
  | case4 =>
    intro out _
    simp [base64Encode, decodeLoop]

theorem charAt_last (pre : CString) (a b : Nat) :
    charAt (pre ++ [a, b]) (((pre ++ [a, b]).length : Int) - 1) = some b := by
  have e : (((pre ++ [a, b]).length : Int) - 1) = ((pre.length + 1 : Nat) : Int) := by
    simp only [List.length_append, List.length_cons, List.length_nil]; omega
  rw [e]
  unfold charAt
  rw [if_neg (by omega), Int.toNat_ofNat, if_pos (by simp)]
  rw [List.getD_eq_getElem?_getD, List.getElem?_append_right (by omega)]
  simp

theorem charAt_prev (pre : CString) (a b : Nat) :
    charAt (pre ++ [a, b]) (((pre ++ [a, b]).length : Int) - 2) = some a := by
  have e : (((pre ++ [a, b]).length : Int) - 2) = ((pre.length : Nat) : Int) := by
    simp only [List.length_append, List.length_cons, List.length_nil]; omega
  rw [e]
  unfold charAt
  rw [if_neg (by omega), Int.toNat_ofNat, if_pos (by simp)]
  rw [List.getD_eq_getElem?_getD, List.getElem?_append_right (by omega)]
  simp

theorem base64Encode_tail (B : List Nat) :
    (∀ b ∈ B, b < 256) → B ≠ [] →
      ∃ pre a b, base64Encode B = pre ++ [a, b] ∧
        pre.length + 2 = 4 * ((B.length + 2) / 3) ∧
        (a = 61 ↔ B.length % 3 = 1) ∧ (b = 61 ↔ B.length % 3 ≠ 0) := by
  induction B using base64Encode.induct with
  | case1 x y z rest ih =>
    intro hB _
    have hy : y < 256 := hB y (by simp)
    have hz : z < 256 := hB z (by simp)
    have hrest : ∀ b ∈ rest, b < 256 := fun b hb => hB b (by simp [hb])
    by_cases hr : rest = []
    · subst hr
      refine ⟨[b64Char (x / 4), b64Char ((x % 4) * 16 + y / 16)],
        b64Char ((y % 16) * 4 + z / 64), b64Char (z % 64), ?_, ?_, ?_, ?_⟩
      · simp [base64Encode]
      · simp
      · have := b64Char_ne_pad ((y % 16) * 4 + z / 64) (by omega)
        simp [this]
      · have := b64Char_ne_pad (z % 64) (by omega)
        simp [this]
    · obtain ⟨pre, a, b, e, hl, ha, hb⟩ := ih hrest hr
      refine ⟨b64Char (x / 4) :: b64Char ((x % 4) * 16 + y / 16) ::
        b64Char ((y % 16) * 4 + z / 64) :: b64Char (z % 64) :: pre, a, b, ?_, ?_, ?_, ?_⟩
      · simp [base64Encode, e]
      · simp only [List.length_cons]; omega
      · rw [ha]; simp only [List.length_cons]; omega
      · rw [hb]; simp only [List.length_cons]; omega
  | case2 x y =>
    intro hB _
    have hy : y < 256 := hB y (by simp)
    refine ⟨[b64Char (x / 4), b64Char ((x % 4) * 16 + y / 16)],
      b64Char ((y % 16) * 4), 61, ?_, ?_, ?_, ?_⟩
    · simp [base64Encode]
    · simp
    · have := b64Char_ne_pad ((y % 16) * 4) (by omega)
      simp [this]
    · simp
  | case3 x =>
    intro _ _
    exact ⟨[b64Char (x / 4), b64Char ((x % 4) * 16)], 61, 61, by simp [base64Encode],
      by simp, by simp, by simp⟩
  | case4 => intro _ h; exact absurd rfl h

/-- Round trip on the inputs that do not reach the defect of C1: for every non-empty
sequence `B` of bytes, both copies of `base64Decode` return, for the padded encoding
of `B`, a buffer holding exactly `B` with `*outLen = |B|`. -/
theorem base64Decode_encode_nonempty (B : List Nat) (hB : ∀ b ∈ B, b < 256) (hne : B ≠ []) :
    base64Decode (base64Encode B) = .buffer B B.length ∧
      base64DecodeWin (base64Encode B) = .buffer B B.length := by
  obtain ⟨pre, a, b, e, hl, ha, hb⟩ := base64Encode_tail B hB hne
  have hdec := decodeLoop_encode B [] hB
  simp only [List.length_nil, Nat.zero_add, List.nil_append] at hdec
  have hlen : (base64Encode B).length = 4 * ((B.length + 2) / 3) := by
    rw [e]; simp only [List.length_append, List.length_cons, List.length_nil]; omega
  have hpos : 0 < B.length := List.length_pos.mpr hne
  have c1 : charAt (base64Encode B) (((base64Encode B).length : Int) - 1) = some b := by
    rw [e]; exact charAt_last pre a b
  have c2 : charAt (base64Encode B) (((base64Encode B).length : Int) - 2) = some a := by
    rw [e]; exact charAt_prev pre a b
  have hd : (if a = 61 then (if b = 61 then (base64Encode B).length / 4 * 3 - 1
        else (base64Encode B).length / 4 * 3) - 1
      else (if b = 61 then (base64Encode B).length / 4 * 3 - 1
        else (base64Encode B).length / 4 * 3)) = B.length := by
    rw [hlen]
    by_cases h1 : B.length % 3 = 1
    · rw [if_pos (ha.mpr h1), if_pos (hb.mpr (by omega))]; omega
    · rw [if_neg (fun h => h1 (ha.mp h))]
      by_cases h0 : B.length % 3 = 0
      · rw [if_neg (fun h => hb.mp h h0)]; omega
      · rw [if_pos (hb.mpr h0)]; omega
  have h4 : ¬ (base64Encode B).length % 4 ≠ 0 := by rw [hlen]; omega
  have hgt : (base64Encode B).length > 1 := by rw [hlen]; omega
  constructor
  · unfold base64Decode
    simp only [h4, if_false, c1, c2, hgt, if_true, hd, hdec]
  · unfold base64DecodeWin
    simp only [h4, if_false, c1, c2, hd, hdec]

theorem decodeLoop_length (dLen : Nat) (src : CString) (out : List Nat) :
    out.length ≤ dLen →
      (decodeLoop dLen src out).length = min dLen (out.length + 3 * (src.length / 4)) := by
  induction src, out using decodeLoop.induct dLen with
  | case1 a b c d rest out triple out1 out2 out3 ih =>
    intro h
    rw [decodeLoop]
    have h1 : out1.length = min dLen (out.length + 1) := by
      show (if out.length < dLen then out ++ [(triple >>> 16) &&& 0xFF] else out).length = _
      split
      · rw [List.length_append, List.length_singleton]; omega
      · omega
    have h2 : out2.length = min dLen (out.length + 2) := by
      show (if out1.length < dLen then out1 ++ [(triple >>> 8) &&& 0xFF] else out1).length = _
      split
      · rw [List.length_append, List.length_singleton]; omega
      · omega
    have h3 : out3.length = min dLen (out.length + 3) := by
      show (if out2.length < dLen then out2 ++ [triple &&& 0xFF] else out2).length = _
      split
      · rw [List.length_append, List.length_singleton]; omega
      · omega
    have := ih (by omega)
    simp only [List.length_cons]
    show (decodeLoop dLen rest out3).length = _
    rw [this, h3]
    omega
  | case2 src out hsrc =>
    intro h
    have hlt : src.length < 4 := by
      match src, hsrc with
      | [], _ => simp
      | [_], _ => simp
      | [_, _], _ => simp
      | [_, _, _], _ => simp
      | a :: b :: c :: d :: rest, hsrc => exact absurd rfl (hsrc a b c d rest)
    rw [decodeLoop]
    · have : src.length / 4 = 0 := by omega
      rw [this]; omega
    · exact hsrc

set_option maxRecDepth 100000 in
theorem b64_rev_outside : ∀ c < 256, c ∉ b64Alphabet → initB64.getD c 0 = 64 := by decide

theorem charAt_of_lt (src : CString) (i : Nat) (h : i < src.length) :
    charAt src (i : Int) = some (src.getD i 0) := by
  unfold charAt
  rw [if_neg (by omega), Int.toNat_ofNat, if_pos h]

theorem base64Decode_of_pos (src : CString) (h4 : src.length % 4 = 0) (hne : src ≠ []) :
    ∃ bytes, base64Decode src = .buffer bytes bytes.length ∧
      base64DecodeWin src = .buffer bytes bytes.length ∧
      bytes.length = src.length / 4 * 3 - (if src.getD (src.length - 1) 0 = 61 then 1 else 0)
        - (if src.getD (src.length - 2) 0 = 61 then 1 else 0) := by
  have hpos : 0 < src.length := List.length_pos.mpr hne
  have hge : 4 ≤ src.length := by omega
  have e1 : ((src.length : Int) - 1) = ((src.length - 1 : Nat) : Int) := by omega
  have e2 : ((src.length : Int) - 2) = ((src.length - 2 : Nat) : Int) := by omega
  have c1 := charAt_of_lt src (src.length - 1) (by omega)
  have c2 := charAt_of_lt src (src.length - 2) (by omega)
  rw [← e1] at c1
  rw [← e2] at c2
  have hgt : src.length > 1 := by omega
  have h4' : ¬ src.length % 4 ≠ 0 := by omega
  generalize hd : (if src.getD (src.length - 2) 0 = 61 then
      (if src.getD (src.length - 1) 0 = 61 then src.length / 4 * 3 - 1
        else src.length / 4 * 3) - 1
      else (if src.getD (src.length - 1) 0 = 61 then src.length / 4 * 3 - 1
        else src.length / 4 * 3)) = dLen
  have hdl : dLen = src.length / 4 * 3 - (if src.getD (src.length - 1) 0 = 61 then 1 else 0)
        - (if src.getD (src.length - 2) 0 = 61 then 1 else 0) := by
    rw [← hd]; split <;> split <;> omega
  have hlen : (decodeLoop dLen src []).length = dLen := by
    rw [decodeLoop_length dLen src [] (Nat.zero_le _), hdl]
    simp only [List.length_nil, Nat.zero_add]
    split <;> split <;> omega
  refine ⟨decodeLoop dLen src [], ?_, ?_, ?_⟩
  · unfold base64Decode
    simp only [h4', if_false, c1, c2, hgt, if_true, hd, hlen]
  · unfold base64DecodeWin
    simp only [h4', if_false, c1, c2, hd, hlen]
  · rw [hlen, hdl]

theorem base64Decode_null_iff (src : CString) :
    (base64Decode src = .null ↔ src.length % 4 ≠ 0) ∧
      (base64DecodeWin src = .null ↔ src.length % 4 ≠ 0) := by
  by_cases h4 : src.length % 4 = 0
  · by_cases hne : src = []
    · subst hne
      exact ⟨by decide, by decide⟩
    · obtain ⟨bytes, hl, hw, _⟩ := base64Decode_of_pos src h4 hne
      rw [hl, hw]
      simp [h4]
  · constructor
    · unfold base64Decode; simp [h4]
    · unfold base64DecodeWin; simp [h4]

/-! ## The Windows reader: scanning is independent of how the bytes arrive -/

theorem memchr_lt {s : List Nat} {c k : Nat} (h : memchr s c = some k) : k < s.length := by
  induction s generalizing k with
  | nil => simp [memchr] at h
  | cons b rest ih =>
    simp only [memchr] at h
    split at h
    · cases h; simp
    · cases hm : memchr rest c with
      | none => simp [hm] at h
      | some j =>
        simp only [hm, Option.map_some', Option.some.injEq] at h
        have := ih hm
        simp only [List.length_cons]
        omega

theorem memchr_append_of_some {s : List Nat} {c k : Nat} (t : List Nat)
    (h : memchr s c = some k) : memchr (s ++ t) c = some k := by
  induction s generalizing k with
  | nil => simp [memchr] at h
  | cons b rest ih =>
    rw [List.cons_append, memchr]
    rw [memchr] at h
    by_cases hb : b = c
    · rw [if_pos hb] at h ⊢; exact h
    · rw [if_neg hb] at h ⊢
      cases hm : memchr rest c with
      | none => simp [hm] at h
      | some j => rw [ih hm]; rw [hm] at h; exact h

theorem memchr_none_iff {s : List Nat} {c : Nat} : memchr s c = none ↔ c ∉ s := by
  induction s with
  | nil => simp [memchr]
  | cons b rest ih =>
    simp only [memchr, List.mem_cons, not_or]
    split
    · rename_i hb; simp [hb]
    · rename_i hb
      simp only [Option.map_eq_none', ih]
      constructor
      · intro h; exact ⟨fun e => hb e.symm, h⟩
      · intro h; exact h.2

theorem memchr_line (line rest : List Nat) (c : Nat) (h : c ∉ line) :
    memchr (line ++ c :: rest) c = some line.length := by
  induction line with
  | nil => simp [memchr]
  | cons b bs ih =>
    simp only [List.mem_cons, not_or] at h
    rw [List.cons_append, memchr, if_neg (fun e => h.1 e.symm), ih h.2]
    rfl

theorem scanLines_none {parse : CString → Option Json} {s : List Nat} (parsed : List CString)
    (posted : List WinMsg) (h : memchr s 10 = none) :
    scanLines parse s parsed posted = { buf := s, parsed := parsed, posted := posted } := by
  rw [scanLines]
  split
  · rfl
  · rename_i k hk; rw [h] at hk; cases hk

theorem scanLines_some {parse : CString → Option Json} {s : List Nat} {k : Nat}
    (parsed : List CString) (posted : List WinMsg) (h : memchr s 10 = some k) :
    scanLines parse s parsed posted =
      scanLines parse (s.drop (k + 1)) (parsed ++ [cstr (s.take k)])
        (match parse (cstr (s.take k)) with
          | some m => posted ++ [WinMsg.stdinCmd m]
          | none => posted) := by
  rw [scanLines]
  split
  · rename_i hk; rw [h] at hk; cases hk
  · rename_i j hj
    rw [h] at hj
    cases hj
    rfl

/-- After the inner loop the carry buffer holds no newline. -/
theorem scanLines_buf (parse : CString → Option Json) (s : List Nat) :
    ∀ (parsed : List CString) (posted : List WinMsg),
      memchr (scanLines parse s parsed posted).buf 10 = none := by
  induction s using Nat.strongRecMeasure List.length with
  | ind s ih =>
    intro parsed posted
    cases h : memchr s 10 with
    | none => rw [scanLines_none parsed posted h]; exact h
    | some k =>
      rw [scanLines_some parsed posted h]
      apply ih
      have := memchr_lt h
      simp only [List.length_drop]
      omega

/-- Scanning `s`, then scanning what was left followed by `t`, is scanning `s ++ t`. -/
theorem scanLines_append (parse : CString → Option Json) (s : List Nat) :
    ∀ (t : List Nat) (parsed : List CString) (posted : List WinMsg),
      scanLines parse ((scanLines parse s parsed posted).buf ++ t)
          (scanLines parse s parsed posted).parsed (scanLines parse s parsed posted).posted
        = scanLines parse (s ++ t) parsed posted := by
  induction s using Nat.strongRecMeasure List.length with
  | ind s ih =>
    intro t parsed posted
    cases h : memchr s 10 with
    | none => rw [scanLines_none parsed posted h]
    | some k =>
      have hk := memchr_lt h
      rw [scanLines_some parsed posted h, scanLines_some parsed posted (memchr_append_of_some t h)]
      rw [ih (s.drop (k + 1)) (by simp only [List.length_drop]; omega)]
      rw [List.take_append_of_le_length (by omega), List.drop_append_of_le_length (by omega)]

theorem stdinReaderThread_eq_scan (parse : CString → Option Json) (reads : List (List Nat)) :
    (∀ c ∈ reads, c ≠ []) → ∀ r : WinReader, memchr r.buf 10 = none →
      stdinReaderThread parse reads r =
        { scanLines parse (r.buf ++ bytesOfReads reads) r.parsed r.posted with
          posted := (scanLines parse (r.buf ++ bytesOfReads reads) r.parsed r.posted).posted
            ++ [WinMsg.close] } := by
  induction reads with
  | nil =>
    intro _ r hr
    simp only [stdinReaderThread, bytesOfReads, List.append_nil]
    rw [scanLines_none r.parsed r.posted hr]
  | cons chunk reads ih =>
    intro h r _
    have hc : chunk.length > 0 := List.length_pos.mpr (h chunk (by simp))
    simp only [stdinReaderThread, hc, if_true, bytesOfReads]
    rw [ih (fun c hc => h c (by simp [hc])) _ (scanLines_buf parse _ _ _),
      scanLines_append, List.append_assoc]

theorem bytesOfReads_eq_nil {reads : List (List Nat)} (h : ∀ c ∈ reads, c ≠ [])
    (he : bytesOfReads reads = []) : reads = [] := by
  cases reads with
  | nil => rfl
  | cons c cs =>
    simp only [bytesOfReads, List.append_eq_nil] at he
    exact absurd he.1 (h c (by simp))

theorem take_line (l rest : List Nat) (c : Nat) : List.take l.length (l ++ c :: rest) = l := by
  induction l with
  | nil => rfl
  | cons b bs ih => simp only [List.cons_append, List.length_cons, List.take_succ_cons, ih]

theorem drop_line (l rest : List Nat) (c : Nat) :
    List.drop (l.length + 1) (l ++ c :: rest) = rest := by
  induction l with
  | nil => rfl
  | cons b bs ih => simp only [List.cons_append, List.length_cons, List.drop_succ_cons, ih]

theorem scanLines_streamOfLines (parse : CString → Option Json) (lines : List (List Nat)) :
    (∀ l ∈ lines, 10 ∉ l) → ∀ (parsed : List CString) (posted : List WinMsg),
      scanLines parse (streamOfLines lines) parsed posted =
        { buf := [], parsed := parsed ++ lines.map cstr,
          posted := posted ++ (parsedMessages parse lines).map WinMsg.stdinCmd } := by
  induction lines with
  | nil =>
    intro _ parsed posted
    rw [streamOfLines, scanLines_none parsed posted (by simp [memchr])]
    simp [parsedMessages]
  | cons l ls ih =>
    intro h parsed posted
    have hl : 10 ∉ l := h l (by simp)
    rw [streamOfLines, scanLines_some parsed posted (memchr_line l _ 10 hl)]
    rw [take_line, drop_line, ih (fun x hx => h x (by simp [hx]))]
    cases hp : parse (cstr l) with
    | none => simp [parsedMessages, hp]
    | some m => simp [parsedMessages, hp]

/-! ## The Linux reader on newline-terminated lines -/

theorem getline_line (l rest : List Nat) (h : 10 ∉ l) :
    getline (l ++ 10 :: rest) = some (l ++ [10], rest) := by
  induction l with
  | nil => simp [getline]
  | cons b bs ih =>
    simp only [List.mem_cons, not_or] at h
    rw [List.cons_append, getline, if_neg (fun e => h.1 e.symm), ih h.2]
    rfl

theorem stdinReader_nil (parse : CString → Option Json) (r : LinuxReader) :
    stdinReader parse [] r = { r with idle := r.idle ++ [IdleSource.mainQuit] } := by
  rw [stdinReader]
  split
  · rfl
  · rename_i h; simp [getline] at h

theorem stdinReader_line (parse : CString → Option Json) (l rest : List Nat) (h : 10 ∉ l)
    (r : LinuxReader) :
    stdinReader parse (l ++ 10 :: rest) r =
      if l.length = 0 then stdinReader parse rest r
      else stdinReader parse rest
        { parsed := r.parsed ++ [cstr l],
          idle := match parse (cstr l) with
            | some m => r.idle ++ [IdleSource.processCmd m]
            | none => r.idle } := by
  rw [stdinReader]
  split
  · rename_i hg; rw [getline_line l rest h] at hg; cases hg
  · rename_i line rest' hg
    rw [getline_line l rest h] at hg
    simp only [Option.some.injEq, Prod.mk.injEq] at hg
    obtain ⟨h1, h2⟩ := hg
    subst h1 h2
    have e : (l ++ [10]).getLast? = some 10 := by simp
    simp only [e, if_true, List.dropLast_concat]

theorem stdinReader_streamOfLines (parse : CString → Option Json) (hparse : parse [] = none)
    (lines : List (List Nat)) :
    (∀ l ∈ lines, 10 ∉ l) → ∀ r : LinuxReader,
      (stdinReader parse (streamOfLines lines) r).idle =
        r.idle ++ (parsedMessages parse lines).map IdleSource.processCmd
          ++ [IdleSource.mainQuit] := by
  induction lines with
  | nil =>
    intro _ r
    rw [streamOfLines, stdinReader_nil]
    simp [parsedMessages]
  | cons l ls ih =>
    intro h r
    have hl : 10 ∉ l := h l (by simp)
    have hls : ∀ x ∈ ls, 10 ∉ x := fun x hx => h x (by simp [hx])
    rw [streamOfLines, stdinReader_line parse l _ hl]
    by_cases h0 : l.length = 0
    · have : l = [] := List.length_eq_zero.mp h0
      subst this
      rw [if_pos h0, ih hls]
      simp [parsedMessages, cstr, hparse]
    · rw [if_neg h0, ih hls]
      cases hp : parse (cstr l) with
      | none => simp [parsedMessages, hp]
      | some m => simp [parsedMessages, hp]

/-! ## The Windows registry after `buildMenuItems` -/

theorem buildMenuItemsWin_reg (items : List Json) (reg : Registry) :
    (buildMenuItemsWin items reg).2 = (preorderLeafIds items).foldl registerLeaf reg := by
  induction items, reg using buildMenuItemsWin.induct with
  | case1 reg => rw [buildMenuItemsWin, preorderLeafIds]; rfl
  | case2 reg cfg rest hsep ih =>
    rw [buildMenuItemsWin, preorderLeafIds, if_pos hsep, if_pos hsep]
    exact ih
  | case3 reg cfg rest hsep jChildren hsub sub ih1 _ ih2 =>
    rw [buildMenuItemsWin, preorderLeafIds, if_neg hsep, if_neg hsep]
    simp only [jChildren] at hsub
    simp only [hsub, and_self, if_true, List.foldl_append]
    rw [ih2, ih1]
  | case4 reg cfg rest hsep itemId jChildren hsub ih =>
    rw [buildMenuItemsWin, preorderLeafIds, if_neg hsep, if_neg hsep]
    simp only [jChildren] at hsub
    simp only [hsub, if_false, List.foldl_cons]
    exact ih

theorem foldl_registerLeaf_next (ids : List CString) :
    ∀ reg : Registry,
      (ids.foldl registerLeaf reg).gNextCmdId = bumpCmdId^[ids.length] reg.gNextCmdId := by
  induction ids with
  | nil => intro reg; rfl
  | cons i is ih =>
    intro reg
    rw [List.foldl_cons, ih, List.length_cons, Function.iterate_succ_apply]
    rfl

theorem issuedIds_add (a b : Nat) :
    ∀ c, issuedIds c (a + b) = issuedIds c a ++ issuedIds (bumpCmdId^[a] c) b := by
  induction a with
  | zero => intro c; simp [issuedIds]
  | succ a ih =>
    intro c
    rw [Nat.succ_add, issuedIds, ih, issuedIds, Function.iterate_succ_apply]
    rfl

theorem buildMenuItemsWin_cmdIds (items : List Json) (reg : Registry) :
    menuCmdIds (buildMenuItemsWin items reg).1
      = issuedIds reg.gNextCmdId (preorderLeafIds items).length := by
  induction items, reg using buildMenuItemsWin.induct with
  | case1 reg => rw [buildMenuItemsWin, preorderLeafIds]; simp [menuCmdIds, issuedIds]
  | case2 reg cfg rest hsep ih =>
    rw [buildMenuItemsWin, preorderLeafIds, if_pos hsep, if_pos hsep]
    simp only [menuCmdIds]
    exact ih
  | case3 reg cfg rest hsep jChildren hsub sub ih1 _ ih2 =>
    rw [buildMenuItemsWin, preorderLeafIds, if_neg hsep, if_neg hsep]
    simp only [jChildren] at hsub
    simp only [hsub, and_self, if_true, menuCmdIds, List.length_append]
    rw [issuedIds_add, ih1]
    simp only [sub] at ih2
    rw [ih2, buildMenuItemsWin_reg, foldl_registerLeaf_next]
  | case4 reg cfg rest hsep itemId jChildren hsub ih =>
    rw [buildMenuItemsWin, preorderLeafIds, if_neg hsep, if_neg hsep]
    simp only [jChildren] at hsub
    simp only [hsub, if_false, menuCmdIds, List.length_cons, issuedIds]
    rw [ih]
    rfl

theorem foldl_registerLeaf_map (ids : List CString) :
    ∀ reg : Registry,
      (ids.foldl registerLeaf reg).gMenuIdMap =
        reg.gMenuIdMap ++
          ((issuedIds reg.gNextCmdId ids.length).zip (ids.map strncpy255)).take
            (MAX_MENU_ITEMS - reg.gMenuIdMap.length) := by
  induction ids with
  | nil => intro reg; simp [issuedIds]
  | cons i is ih =>
    intro reg
    rw [List.foldl_cons, ih]
    simp only [registerLeaf, Registry.gMenuIdCount, List.length_cons, issuedIds, List.map_cons,
      List.zip_cons_cons]
    by_cases hL : reg.gMenuIdMap.length < MAX_MENU_ITEMS
    · rw [if_pos hL]
      have e : MAX_MENU_ITEMS - reg.gMenuIdMap.length
          = (MAX_MENU_ITEMS - (reg.gMenuIdMap ++ [(reg.gNextCmdId, strncpy255 i)]).length) + 1 := by
        rw [List.length_append, List.length_singleton]; omega
      rw [e, List.take_succ_cons, List.append_assoc]
      rfl
    · rw [if_neg hL]
      have e : MAX_MENU_ITEMS - reg.gMenuIdMap.length = 0 := by omega
      rw [e, List.take_zero, List.take_zero]

theorem issuedIds_length (n : Nat) : ∀ c, (issuedIds c n).length = n := by
  induction n with
  | zero => intro c; rfl
  | succ n ih => intro c; rw [issuedIds, List.length_cons, ih]

theorem issuedIds_take (t n : Nat) : ∀ c, (issuedIds c n).take t = issuedIds c (min t n) := by
  induction n generalizing t with
  | zero => intro c; simp [issuedIds]
  | succ n ih =>
    intro c
    cases t with
    | zero => simp [issuedIds]
    | succ t =>
      rw [issuedIds, List.take_succ_cons, ih, Nat.succ_min_succ, issuedIds]

theorem issuedIds_eq_range' (n : Nat) :
    ∀ c, c + n ≤ 2 ^ 32 → issuedIds c n = List.range' c n := by
  induction n with
  | zero => intro c _; rfl
  | succ n ih =>
    intro c h
    rw [issuedIds, List.range'_succ]
    cases n with
    | zero => rfl
    | succ n =>
      have hb : bumpCmdId c = c + 1 := by unfold bumpCmdId; omega
      rw [hb, ih (c + 1) (by omega)]

theorem find_zip_range' (k : Nat) (m : Nat) :
    ∀ (a : Nat) (ys : List CString),
      ((List.range' a m).zip ys).find? (fun e => decide (e.1 = k)) =
        if a ≤ k ∧ k < a + min m ys.length then (ys[k - a]?).map (fun y => (k, y)) else none := by
  induction m with
  | zero =>
    intro a ys
    rw [List.range'_zero, List.zip_nil_left, List.find?_nil, if_neg (by omega)]
  | succ m ih =>
    intro a ys
    cases ys with
    | nil =>
      rw [List.zip_nil_right, List.find?_nil, if_neg (by simp only [List.length_nil]; omega)]
    | cons y ys =>
      rw [List.range'_succ, List.zip_cons_cons, List.find?_cons]
      by_cases hk : a = k
      · subst hk
        simp
      · have hd : decide ((a, y).1 = k) = false := by simp [hk]
        rw [hd, ih (a + 1) ys]
        by_cases hc : a + 1 ≤ k ∧ k < a + 1 + min m ys.length
        · have hc' : a ≤ k ∧ k < a + min (m + 1) (y :: ys).length := by
            simp only [List.length_cons, Nat.succ_min_succ]; omega
          rw [if_pos hc, if_pos hc']
          have : k - a = (k - (a + 1)) + 1 := by omega
          rw [this, List.getElem?_cons_succ]
        · have hc' : ¬ (a ≤ k ∧ k < a + min (m + 1) (y :: ys).length) := by
            simp only [List.length_cons, Nat.succ_min_succ]; omega
          rw [if_neg hc, if_neg hc']

/-- The registry after `setMenu`: the first `MAX_MENU_ITEMS` leaves, numbered from 1. -/
theorem buildMenuItemsWin_reset_map (items : List Json) :
    (buildMenuItemsWin items Registry.reset).2.gMenuIdMap =
      (List.range' 1 (min MAX_MENU_ITEMS (preorderLeafIds items).length)).zip
        (((preorderLeafIds items).map strncpy255).take MAX_MENU_ITEMS) := by
  rw [buildMenuItemsWin_reg, foldl_registerLeaf_map]
  simp only [Registry.reset, List.nil_append, List.length_nil, Nat.sub_zero]
  have tz : ∀ (n : Nat) (l : List Nat) (l' : List CString),
      (l.zip l').take n = (l.take n).zip (l'.take n) := fun n l l' => List.take_zipWith
  rw [tz, issuedIds_take, issuedIds_eq_range']
  have : min MAX_MENU_ITEMS (preorderLeafIds items).length ≤ 4096 := by
    unfold MAX_MENU_ITEMS; omega
  omega

/-- What the scan of `WM_COMMAND` finds after `setMenu`. -/
theorem resolve_after_build (items : List Json) (wParam : Nat) :
    resolve (buildMenuItemsWin items Registry.reset).2 wParam =
      if 1 ≤ LOWORD wParam ∧ LOWORD wParam ≤ min MAX_MENU_ITEMS (preorderLeafIds items).length
      then ((preorderLeafIds items)[LOWORD wParam - 1]?).map strncpy255
      else none := by
  unfold resolve
  rw [buildMenuItemsWin_reset_map, find_zip_range']
  have hlen : (List.take MAX_MENU_ITEMS (List.map strncpy255 (preorderLeafIds items))).length
      = min MAX_MENU_ITEMS (preorderLeafIds items).length := by
    rw [List.length_take, List.length_map]
  rw [hlen, Nat.min_self]
  by_cases hc : 1 ≤ LOWORD wParam ∧
      LOWORD wParam ≤ min MAX_MENU_ITEMS (preorderLeafIds items).length
  · have hc' : 1 ≤ LOWORD wParam ∧
        LOWORD wParam < 1 + min MAX_MENU_ITEMS (preorderLeafIds items).length := by omega
    rw [if_pos hc, if_pos hc']
    have hlt : LOWORD wParam - 1 < MAX_MENU_ITEMS := by omega
    rw [List.getElem?_take_of_lt hlt, List.getElem?_map]
    cases (preorderLeafIds items)[LOWORD wParam - 1]? <;> rfl
  · have hc' : ¬ (1 ≤ LOWORD wParam ∧
        LOWORD wParam < 1 + min MAX_MENU_ITEMS (preorderLeafIds items).length) := by omega
    rw [if_neg hc, if_neg hc']
    rfl

/-! ## The dispatchers, method by method -/

theorem issuedIds_getElem? (n : Nat) :
    ∀ (c j : Nat), c < 2 ^ 32 → j < n → (issuedIds c n)[j]? = some ((c + j) % 2 ^ 32) := by
  induction n with
  | zero => intro c j _ hj; omega
  | succ n ih =>
    intro c j hc hj
    cases j with
    | zero =>
      rw [issuedIds, List.getElem?_cons_zero, Nat.add_zero, Nat.mod_eq_of_lt hc]
    | succ j =>
      have hb : bumpCmdId c < 2 ^ 32 := by unfold bumpCmdId; omega
      rw [issuedIds, List.getElem?_cons_succ, ih (bumpCmdId c) j hb (by omega)]
      unfold bumpCmdId
      congr 1
      omega

/-- The `k`-th leaf of the item list gets the command id `k`. -/
theorem cmdId_of_kth_leaf (items : List Json) (k : Nat) (h1 : 1 ≤ k)
    (hk : k ≤ (preorderLeafIds items).length) (h32 : k < 2 ^ 32) :
    (menuCmdIds (buildMenuItemsWin items Registry.reset).1)[k - 1]? = some k := by
  rw [buildMenuItemsWin_cmdIds]
  have := issuedIds_getElem? (preorderLeafIds items).length 1 (k - 1) (by decide) (by omega)
  simp only [Registry.reset]
  rw [this]
  congr 1
  omega

/-- Every command id in the registry was appended to the native menu. -/
theorem resolve_mem_cmdIds (items : List Json) (wParam : Nat) (id : CString)
    (h : resolve (buildMenuItemsWin items Registry.reset).2 wParam = some id) :
    LOWORD wParam ∈ menuCmdIds (buildMenuItemsWin items Registry.reset).1 := by
  rw [resolve_after_build] at h
  split at h
  · rename_i hc
    have hM : MAX_MENU_ITEMS = 4096 := rfl
    have := cmdId_of_kth_leaf items (LOWORD wParam) hc.1 (by omega) (by omega)
    exact List.getElem?_mem this
  · cases h

theorem wmStdinCmd_setMenu (api : WinApi) (m : Json) (s : WinState)
    (h : methodOf m = some (ascii "setMenu")) :
    wmStdinCmd api m s =
      .ok { s with
        gMenu := (buildMenuItemsWin (cJSON_children (paramOf m (ascii "items")))
          Registry.reset).1,
        reg := (buildMenuItemsWin (cJSON_children (paramOf m (ascii "items")))
          Registry.reset).2 } := by
  unfold methodOf at h
  unfold wmStdinCmd paramOf
  simp only [h, if_true]

theorem processCmd_setMenu (m : Json) (s : LinuxState)
    (h : methodOf m = some (ascii "setMenu")) :
    processCmd m s =
      .ok { s with gMenu := linuxMenuOf (paramOf m (ascii "items")), gBuildingMenu := false } := by
  unfold methodOf at h
  unfold processCmd paramOf linuxMenuOf
  simp only [h, if_true]

theorem methodOf_setMenuMsg (items : List Json) :
    methodOf (setMenuMsg items) = some (ascii "setMenu") := by rfl

theorem paramOf_setMenuMsg (items : List Json) :
    paramOf (setMenuMsg items) (ascii "items") = some (Json.array items) := by rfl

theorem methodOf_setIconMsg (b64 : CString) :
    methodOf (setIconMsg b64) = some (ascii "setIcon") := by rfl

theorem paramOf_setIconMsg (b64 : CString) :
    paramOf (setIconMsg b64) (ascii "base64") = some (Json.string b64) := by rfl

theorem methodOf_quitMsg : methodOf quitMsg = some (ascii "quit") := by rfl

/-! ## Menus: one top-level entry per item -/

theorem buildMenuItemsWin_length (items : List Json) (reg : Registry) :
    (buildMenuItemsWin items reg).1.length = items.length := by
  induction items, reg using buildMenuItemsWin.induct with
  | case1 reg => rw [buildMenuItemsWin]; rfl
  | case2 reg cfg rest hsep ih =>
    rw [buildMenuItemsWin, if_pos hsep]
    simp only [List.length_cons, ih]
  | case3 reg cfg rest hsep jChildren hsub sub _ _ ih2 =>
    rw [buildMenuItemsWin, if_neg hsep]
    simp only [jChildren] at hsub
    simp only [hsub, and_self, if_true, List.length_cons]
    simp only [sub] at ih2
    rw [ih2]
  | case4 reg cfg rest hsep itemId jChildren hsub ih =>
    rw [buildMenuItemsWin, if_neg hsep]
    simp only [jChildren] at hsub
    simp only [hsub, if_false, List.length_cons]
    simp only [itemId] at ih
    rw [ih]

theorem buildMenuItems_length (items : List Json) :
    (buildMenuItems items).length = items.length := by
  induction items using buildMenuItems.induct with
  | case1 => rw [buildMenuItems]; rfl
  | case2 cfg rest hsep ih =>
    rw [buildMenuItems, if_pos hsep, List.length_cons, ih, List.length_cons]
  | case3 cfg rest hsep jChildren hsub _ ih2 =>
    rw [buildMenuItems, if_neg hsep]
    simp only [jChildren] at hsub
    simp only [hsub, and_self, if_true, List.length_cons, ih2]
  | case4 cfg rest hsep jChildren hsub ih =>
    rw [buildMenuItems, if_neg hsep]
    simp only [jChildren] at hsub
    simp only [hsub, if_false, List.length_cons, ih]

theorem placeholder_or_self_length (c : List GtkMenuItem) :
    1 ≤ (if c.isEmpty then [placeholder] else c).length := by
  cases c with
  | nil => simp
  | cons x xs => simp

theorem linuxMenuOf_length (items : Option Json) : 1 ≤ (linuxMenuOf items).length := by
  unfold linuxMenuOf
  exact placeholder_or_self_length _

theorem linuxMenuOf_of_no_children (items : Option Json) (h : cJSON_children items = []) :
    linuxMenuOf items = [placeholder] := by
  unfold linuxMenuOf
  cases items with
  | none => rfl
  | some v =>
    simp only [h]
    rw [buildMenuItems]
    rfl

/-! ## Leaves of plain items -/

theorem preorderLeafIds_leafItem (title id : CString) (rest : List Json) :
    preorderLeafIds (leafItem title id :: rest) = id :: preorderLeafIds rest := by
  rw [preorderLeafIds]
  rfl

theorem preorderLeafIds_manyLeaves (n : Nat) :
    preorderLeafIds (manyLeaves n) = List.replicate n (ascii "x") := by
  induction n with
  | zero => rw [manyLeaves, List.replicate_zero, preorderLeafIds]; rfl
  | succ n ih =>
    rw [manyLeaves, List.replicate_succ, preorderLeafIds_leafItem]
    rw [manyLeaves] at ih
    rw [ih, List.replicate_succ]

theorem preorderLeafIds_scenario : preorderLeafIds scenarioItems = [ascii "a", ascii "b"] := by
  simp [preorderLeafIds, scenarioItems, leafItem, cJSON_GetObjectItem, lookupMember,
    cJSON_IsTrue, cJSON_IsArray, cJSON_GetArraySize, cJSON_children, cJSON_GetStringValue,
    ascii, tolower]

/-! ## `WM_COMMAND` after `setMenu` -/

theorem wmCommand_of_resolve (wParam : Nat) (s : WinState) (id : CString)
    (h : resolve s.reg wParam = some id) :
    wmCommand wParam s = { s with out := s.out ++ [clicked id] } := by
  unfold wmCommand
  rw [h]

theorem wmCommand_of_not_resolve (wParam : Nat) (s : WinState)
    (h : resolve s.reg wParam = none) : wmCommand wParam s = s := by
  unfold wmCommand
  rw [h]

theorem resolve_kth_leaf (items : List Json) (k : Nat) (h1 : 1 ≤ k)
    (hk : k ≤ (preorderLeafIds items).length) (hmax : k ≤ MAX_MENU_ITEMS) :
    resolve (buildMenuItemsWin items Registry.reset).2 k
      = some (strncpy255 ((preorderLeafIds items).getD (k - 1) [])) := by
  have hM : MAX_MENU_ITEMS = 4096 := rfl
  have hlow : LOWORD k = k := by unfold LOWORD; omega
  rw [resolve_after_build, hlow, if_pos ⟨h1, by omega⟩]
  have hlt : k - 1 < (preorderLeafIds items).length := by omega
  rw [List.getElem?_eq_getElem hlt, List.getD_eq_getElem?_getD, List.getElem?_eq_getElem hlt]
  rfl

theorem wmStdinCmd_setMenuMsg (api : WinApi) (items : List Json) (s : WinState) :
    wmStdinCmd api (setMenuMsg items) s =
      .ok { s with
        gMenu := (buildMenuItemsWin items Registry.reset).1,
        reg := (buildMenuItemsWin items Registry.reset).2 } := by
  rw [wmStdinCmd_setMenu api _ s (methodOf_setMenuMsg items), paramOf_setMenuMsg]
  rfl

theorem strncpy255_longId : strncpy255 longId = List.replicate 255 97 := by
  unfold strncpy255 longId
  rw [List.take_replicate]
  rfl

/-- The state after one `setMenu`, through its menu and registry. -/
theorem setMenu_once (api : WinApi) (items : List Json) (s : WinState) :
    ∃ s1, wmStdinCmd api (setMenuMsg items) s = .ok s1 ∧
      s1.gMenu = (buildMenuItemsWin items Registry.reset).1 ∧
      s1.reg = (buildMenuItemsWin items Registry.reset).2 ∧
      s1.out = s.out :=
  ⟨_, wmStdinCmd_setMenuMsg api items s, rfl, rfl, rfl⟩

/-- The states after two `setMenu` commands, through their menus and registries. -/
theorem setMenu_twice (api : WinApi) (A B : List Json) (s : WinState) :
    ∃ sA sB, wmStdinCmd api (setMenuMsg A) s = .ok sA ∧
      wmStdinCmd api (setMenuMsg B) sA = .ok sB ∧
      sA.gMenu = (buildMenuItemsWin A Registry.reset).1 ∧
      sB.gMenu = (buildMenuItemsWin B Registry.reset).1 ∧
      sB.reg = (buildMenuItemsWin B Registry.reset).2 :=
  ⟨_, _, wmStdinCmd_setMenuMsg api A s, wmStdinCmd_setMenuMsg api B _, rfl, rfl, rfl⟩

theorem buildMenuItems_separator :
    buildMenuItems [Json.object [(ascii "separator", Json.jtrue)]] = [GtkMenuItem.separator] := by
  rw [buildMenuItems, if_pos (by rfl), buildMenuItems]

/-! ## The dispatchers on `setIcon`, `setTooltip` and `quit` -/

theorem processCmd_setIcon_absent (m : Json) (s : LinuxState)
    (h : methodOf m = some (ascii "setIcon"))
    (hb : cJSON_GetStringValue (paramOf m (ascii "base64")) = none) :
    processCmd m s = .ok s := by
  unfold methodOf at h
  unfold paramOf at hb
  unfold processCmd
  simp only [h, hb]
  simp [ascii]

theorem processCmd_setIcon_null (m : Json) (s : LinuxState) (b64 : CString)
    (h : methodOf m = some (ascii "setIcon"))
    (hb : cJSON_GetStringValue (paramOf m (ascii "base64")) = some b64)
    (hd : base64Decode b64 = DecodeResult.null) :
    processCmd m s = .ok s := by
  unfold methodOf at h
  unfold paramOf at hb
  unfold processCmd
  simp only [h, hb, hd]
  simp [ascii]

theorem processCmd_setIcon_buffer (m : Json) (s : LinuxState) (b64 : CString)
    (d : List Nat) (len : Nat)
    (h : methodOf m = some (ascii "setIcon"))
    (hb : cJSON_GetStringValue (paramOf m (ascii "base64")) = some b64)
    (hd : base64Decode b64 = DecodeResult.buffer d len) :
    processCmd m s =
      .ok { s with
        gIconSeq := s.gIconSeq + 1,
        iconFiles := s.iconFiles ++ [(iconFileOf (s.gIconSeq + 1), d.take len)],
        iconName := iconNameOf (s.gIconSeq + 1) } := by
  unfold methodOf at h
  unfold paramOf at hb
  unfold processCmd
  simp only [h, hb, hd]
  simp [ascii]

theorem processCmd_setIcon_outOfBounds (m : Json) (s : LinuxState) (b64 : CString)
    (h : methodOf m = some (ascii "setIcon"))
    (hb : cJSON_GetStringValue (paramOf m (ascii "base64")) = some b64)
    (hd : base64Decode b64 = DecodeResult.outOfBounds) :
    processCmd m s = .error Fault.outOfBounds := by
  unfold methodOf at h
  unfold paramOf at hb
  unfold processCmd
  simp only [h, hb, hd]
  simp [ascii]

theorem processCmd_setTooltip_absent (m : Json) (s : LinuxState)
    (h : methodOf m = some (ascii "setTooltip"))
    (hb : cJSON_GetStringValue (paramOf m (ascii "text")) = none) :
    processCmd m s = .ok s := by
  unfold methodOf at h
  unfold paramOf at hb
  unfold processCmd
  simp only [h, hb]
  simp [ascii]

theorem processCmd_quit (m : Json) (s : LinuxState) (h : methodOf m = some (ascii "quit")) :
    processCmd m s = .ok { s with status := IndicatorStatus.passive, mainQuit := true } := by
  unfold methodOf at h
  unfold processCmd
  simp only [h]
  simp [ascii]

theorem wmStdinCmd_quit (api : WinApi) (m : Json) (s : WinState)
    (h : methodOf m = some (ascii "quit")) : wmStdinCmd api m s = .ok s := by
  unfold methodOf at h
  unfold wmStdinCmd
  simp only [h]
  simp [ascii]

theorem wmStdinCmd_setIcon_absent (api : WinApi) (m : Json) (s : WinState)
    (h : methodOf m = some (ascii "setIcon"))
    (hb : cJSON_GetStringValue (paramOf m (ascii "base64")) = none) :
    wmStdinCmd api m s = .error Fault.nullString := by
  unfold methodOf at h
  unfold paramOf at hb
  unfold wmStdinCmd
  simp only [h, hb]
  simp [ascii]

theorem wmStdinCmd_setIcon_null (api : WinApi) (m : Json) (s : WinState) (b64 : CString)
    (h : methodOf m = some (ascii "setIcon"))
    (hb : cJSON_GetStringValue (paramOf m (ascii "base64")) = some b64)
    (hd : base64DecodeWin b64 = DecodeResult.null) :
    wmStdinCmd api m s = .ok s := by
  unfold methodOf at h
  unfold paramOf at hb
  unfold wmStdinCmd
  simp only [h, hb, hd]
  simp [ascii]

theorem wmStdinCmd_setIcon_outOfBounds (api : WinApi) (m : Json) (s : WinState) (b64 : CString)
    (h : methodOf m = some (ascii "setIcon"))
    (hb : cJSON_GetStringValue (paramOf m (ascii "base64")) = some b64)
    (hd : base64DecodeWin b64 = DecodeResult.outOfBounds) :
    wmStdinCmd api m s = .error Fault.outOfBounds := by
  unfold methodOf at h
  unfold paramOf at hb
  unfold wmStdinCmd
  simp only [h, hb, hd]
  simp [ascii]

theorem stringValue_setIconMsg (b64 : CString) :
    cJSON_GetStringValue (paramOf (setIconMsg b64) (ascii "base64")) = some b64 := by rfl

theorem buildMenuItemsWin_nil (reg : Registry) : buildMenuItemsWin [] reg = ([], reg) := by
  rw [buildMenuItemsWin]

/-- On Linux a second `quit` changes nothing. -/
theorem processCmd_quit_idempotent (s s1 : LinuxState)
    (h : processCmd quitMsg s = .ok s1) : processCmd quitMsg s1 = .ok s1 := by
  rw [processCmd_quit quitMsg s methodOf_quitMsg] at h
  rw [processCmd_quit quitMsg s1 methodOf_quitMsg, ← Except.ok.inj h]

/-- On Linux `quit` and the end of input stop the main loop in either order; `quit`
also sets the indicator passive, the end of input alone does not. -/
theorem linux_quit_and_end_of_input (s : LinuxState) :
    processCmd quitMsg (gtkMainQuit s)
        = .ok { s with status := IndicatorStatus.passive, mainQuit := true } ∧
      (gtkMainQuit s).mainQuit = true ∧ (gtkMainQuit s).status = s.status ∧
      gtkMainQuit { s with status := IndicatorStatus.passive, mainQuit := true }
        = { s with status := IndicatorStatus.passive, mainQuit := true } := by
  refine ⟨?_, rfl, rfl, rfl⟩
  rw [processCmd_quit quitMsg _ methodOf_quitMsg]
  rfl

/-- On Windows only `WM_DESTROY` ends the message loop. -/
theorem wmDestroy_quits (s : WinState) :
    (wmDestroy s).quitPosted = true ∧ (wmDestroy s).shown = false := ⟨rfl, rfl⟩

/-! ## Messages without a known method -/

theorem processCmd_no_method (m : Json) (s : LinuxState) (h : methodOf m = none) :
    processCmd m s = .ok s := by
  unfold methodOf at h
  unfold processCmd
  simp only [h]

theorem wmStdinCmd_no_method (api : WinApi) (m : Json) (s : WinState)
    (h : methodOf m = none) : wmStdinCmd api m s = .error Fault.nullString := by
  unfold methodOf at h
  unfold wmStdinCmd
  simp only [h]

theorem processCmd_unknown (m : Json) (s : LinuxState) (meth : CString)
    (h : methodOf m = some meth) (h1 : meth ≠ ascii "setMenu") (h2 : meth ≠ ascii "setIcon")
    (h3 : meth ≠ ascii "setTooltip") (h4 : meth ≠ ascii "quit") :
    processCmd m s = .ok s := by
  unfold methodOf at h
  unfold processCmd
  simp only [h]
  rw [if_neg h1, if_neg h2, if_neg h3, if_neg h4]

theorem wmStdinCmd_unknown (api : WinApi) (m : Json) (s : WinState) (meth : CString)
    (h : methodOf m = some meth) (h1 : meth ≠ ascii "setMenu") (h2 : meth ≠ ascii "setIcon")
    (h3 : meth ≠ ascii "setTooltip") :
    wmStdinCmd api m s = .ok s := by
  unfold methodOf at h
  unfold wmStdinCmd
  simp only [h]
  rw [if_neg h1, if_neg h2, if_neg h3]

/-! ## The registry never outgrows `gMenuIdMap` -/

theorem registerLeaf_cases (reg : Registry) (itemId : CString) :
    (reg.gMenuIdCount < MAX_MENU_ITEMS ∧
        (registerLeaf reg itemId).gMenuIdMap
          = reg.gMenuIdMap ++ [(reg.gNextCmdId, strncpy255 itemId)]) ∨
      (MAX_MENU_ITEMS ≤ reg.gMenuIdCount ∧
        (registerLeaf reg itemId).gMenuIdMap = reg.gMenuIdMap) := by
  unfold registerLeaf
  by_cases h : reg.gMenuIdCount < MAX_MENU_ITEMS
  · left; exact ⟨h, by simp only [h, if_true]⟩
  · right; exact ⟨by omega, by simp only [h, if_false]⟩

theorem registerLeaf_count_le (reg : Registry) (itemId : CString)
    (h : reg.gMenuIdCount ≤ MAX_MENU_ITEMS) :
    (registerLeaf reg itemId).gMenuIdCount ≤ MAX_MENU_ITEMS := by
  rcases registerLeaf_cases reg itemId with ⟨hlt, e⟩ | ⟨_, e⟩
  · unfold Registry.gMenuIdCount at hlt ⊢
    rw [e, List.length_append, List.length_singleton]
    omega
  · unfold Registry.gMenuIdCount at h ⊢
    rw [e]; exact h

theorem strncpy255_length (itemId : CString) : (strncpy255 itemId).length ≤ 255 := by
  unfold strncpy255
  rw [List.length_take]
  omega

theorem buildMenuItemsWin_reset_count (items : List Json) :
    (buildMenuItemsWin items Registry.reset).2.gMenuIdCount
      = min MAX_MENU_ITEMS (preorderLeafIds items).length := by
  unfold Registry.gMenuIdCount
  rw [buildMenuItemsWin_reset_map, List.length_zip, List.length_range', List.length_take,
    List.length_map]
  omega

theorem buildMenuItemsWin_reset_id_length (items : List Json) :
    ∀ e ∈ (buildMenuItemsWin items Registry.reset).2.gMenuIdMap, e.2.length ≤ 255 := by
  intro e he
  rw [buildMenuItemsWin_reset_map] at he
  have h2 := (List.of_mem_zip he).2
  have h3 := List.mem_of_mem_take h2
  obtain ⟨id, _, hid⟩ := List.mem_map.mp h3
  rw [← hid]
  exact strncpy255_length id

theorem resolve_none_of_low_word (items : List Json) (wParam : Nat)
    (h : ¬ (1 ≤ LOWORD wParam ∧ LOWORD wParam ≤ MAX_MENU_ITEMS)) :
    resolve (buildMenuItemsWin items Registry.reset).2 wParam = none := by
  rw [resolve_after_build, if_neg]
  intro hc
  exact h ⟨hc.1, by omega⟩

theorem preorderLeafIds_overflowItems :
    preorderLeafIds overflowItems = ascii "first" :: List.replicate 65536 (ascii "x") := by
  unfold overflowItems
  rw [preorderLeafIds_leafItem, preorderLeafIds_manyLeaves]

/-! ## The readers on a stream that ends without a newline -/

theorem stream_decompose (stream : List Nat) :
    ∃ (lines : List (List Nat)) (tail : List Nat),
      stream = streamOfLines lines ++ tail ∧ (∀ l ∈ lines, 10 ∉ l) ∧ 10 ∉ tail := by
  induction stream with
  | nil => exact ⟨[], [], rfl, by simp, by simp⟩
  | cons b bs ih =>
    obtain ⟨lines, tail, e, hl, ht⟩ := ih
    by_cases hb : b = 10
    · refine ⟨[] :: lines, tail, ?_, ?_, ht⟩
      · rw [streamOfLines, List.nil_append, List.cons_append, ← e, hb]
      · intro l hm
        rcases List.mem_cons.mp hm with h | h
        · rw [h]; simp
        · exact hl l h
    · cases lines with
      | nil =>
        refine ⟨[], b :: tail, ?_, by simp, ?_⟩
        · rw [e]; rfl
        · intro hm
          rcases List.mem_cons.mp hm with h | h
          · exact hb h.symm
          · exact ht h
      | cons l ls =>
        refine ⟨(b :: l) :: ls, tail, ?_, ?_, ht⟩
        · rw [e]; simp only [streamOfLines, List.cons_append]
        · intro x hm
          rcases List.mem_cons.mp hm with h | h
          · rw [h]
            intro hx
            rcases List.mem_cons.mp hx with h' | h'
            · exact hb h'.symm
            · exact hl l (by simp) h'
          · exact hl x (by simp [h])

theorem scanLines_stream_tail (parse : CString → Option Json) (lines : List (List Nat))
    (tail : List Nat) (hl : ∀ l ∈ lines, 10 ∉ l) (ht : 10 ∉ tail)
    (parsed : List CString) (posted : List WinMsg) :
    scanLines parse (streamOfLines lines ++ tail) parsed posted =
      { buf := tail, parsed := parsed ++ lines.map cstr,
        posted := posted ++ (parsedMessages parse lines).map WinMsg.stdinCmd } := by
  rw [← scanLines_append parse (streamOfLines lines) tail parsed posted,
    scanLines_streamOfLines parse lines hl parsed posted]
  simp only [List.nil_append]
  rw [scanLines_none _ _ (memchr_none_iff.mpr ht)]

theorem getline_no_newline (b : Nat) (bs : List Nat) (h : 10 ∉ b :: bs) :
    getline (b :: bs) = some (b :: bs, []) := by
  induction bs generalizing b with
  | nil =>
    have hb : ¬ b = 10 := fun e => h (by simp [e])
    rw [getline, if_neg hb, getline]
  | cons c cs ih =>
    have hb : ¬ b = 10 := fun e => h (by simp [e])
    have hc : 10 ∉ c :: cs := fun hm => h (List.mem_cons_of_mem b hm)
    rw [getline, if_neg hb, ih c hc]

theorem getLast?_ne_of_not_mem (t : List Nat) (h : 10 ∉ t) : t.getLast? ≠ some 10 := by
  intro e
  exact h (List.mem_of_getLast?_eq_some e)

theorem stdinReader_tail (parse : CString → Option Json) (b : Nat) (bs : List Nat)
    (h : 10 ∉ b :: bs) (r : LinuxReader) :
    stdinReader parse (b :: bs) r =
      { parsed := r.parsed ++ [cstr (b :: bs)],
        idle := (match parse (cstr (b :: bs)) with
            | some m => r.idle ++ [IdleSource.processCmd m]
            | none => r.idle) ++ [IdleSource.mainQuit] } := by
  rw [stdinReader]
  split
  · rename_i hg; rw [getline_no_newline b bs h] at hg; cases hg
  · rename_i line rest hg
    rw [getline_no_newline b bs h] at hg
    simp only [Option.some.injEq, Prod.mk.injEq] at hg
    obtain ⟨h1, h2⟩ := hg
    subst h1 h2
    simp only [getLast?_ne_of_not_mem _ h, if_false, List.length_cons, Nat.succ_ne_zero]
    rw [stdinReader_nil]

theorem parsedMessages_append_tail (parse : CString → Option Json) (lines : List (List Nat))
    (tail : List Nat) :
    parsedMessages parse (lines ++ [tail]) =
      parsedMessages parse lines ++ (match parse (cstr tail) with
        | some m => [m]
        | none => []) := by
  unfold parsedMessages
  rw [List.filterMap_append]
  cases h : parse (cstr tail) with
  | none => simp [h]
  | some m => simp [h]

theorem stdinReader_stream_tail (parse : CString → Option Json) (hparse : parse [] = none)
    (lines : List (List Nat)) (tail : List Nat) (ht : 10 ∉ tail) :
    (∀ l ∈ lines, 10 ∉ l) → ∀ r : LinuxReader,
      (stdinReader parse (streamOfLines lines ++ tail) r).idle =
        r.idle ++ (parsedMessages parse (lines ++ [tail])).map IdleSource.processCmd
          ++ [IdleSource.mainQuit] := by
  induction lines with
  | nil =>
    intro _ r
    rw [streamOfLines, List.nil_append, List.nil_append]
    cases tail with
    | nil =>
      rw [stdinReader_nil]
      simp [parsedMessages, cstr, hparse]
    | cons b bs =>
      rw [stdinReader_tail parse b bs ht]
      cases hp : parse (cstr (b :: bs)) with
      | none => simp [parsedMessages, hp]
      | some m => simp [parsedMessages, hp]
  | cons l ls ih =>
    intro h r
    have hl : 10 ∉ l := h l (by simp)
    have hls : ∀ x ∈ ls, 10 ∉ x := fun x hx => h x (by simp [hx])
    have e : streamOfLines (l :: ls) ++ tail = l ++ 10 :: (streamOfLines ls ++ tail) := by
      rw [streamOfLines, List.append_assoc, List.cons_append]
    rw [e, stdinReader_line parse l _ hl]
    by_cases h0 : l.length = 0
    · have : l = [] := List.length_eq_zero.mp h0
      subst this
      rw [if_pos h0, ih hls]
      simp [parsedMessages, cstr, hparse]
    · rw [if_neg h0, ih hls]
      cases hp : parse (cstr l) with
      | none => simp [parsedMessages, hp]
      | some m => simp [parsedMessages, hp]

/-! ## The claims -/

/-- C1, at the input where the code departs from it: for the empty byte sequence the
padded encoding is the empty string, and on it both copies of `base64Decode` pass the
length test and then read `src[len-1]` with `len = 0`, a byte before the string, instead
of returning an empty buffer. (For every non-empty byte sequence the round trip holds:
`base64Decode_encode_nonempty`.) -/
theorem base64Decode_empty_reads_before_src :
    base64Encode [] = [] ∧
      base64Decode (base64Encode []) = DecodeResult.outOfBounds ∧
      base64DecodeWin (base64Encode []) = DecodeResult.outOfBounds := by
  decide

/-- C2 as stated fails: the string `!!!!` has a length that is a multiple of 4 and
consists of characters outside the alphabet that are not `=`, and both copies of
`base64Decode` return a three-byte buffer for it instead of `NULL`. -/
theorem base64Decode_invalid_chars_not_rejected :
    (ascii "!!!!").length % 4 = 0 ∧
      (∀ c ∈ ascii "!!!!", c ∉ b64Alphabet ∧ c ≠ 61) ∧
      base64Decode (ascii "!!!!") = DecodeResult.buffer [4, 16, 64] 3 ∧
      base64DecodeWin (ascii "!!!!") = DecodeResult.buffer [4, 16, 64] 3 := by
  decide

/-- C2, amended: `base64Decode` does not look at the characters. For every non-empty
string whose length is a multiple of 4, whatever characters it holds, both copies
return a buffer, not `NULL`, with `*outLen` bytes written, `*outLen` being
`(len / 4) * 3` less one for each `=` among the last two characters. -/
theorem base64Decode_accepts_every_multiple_of_four (src : CString)
    (h4 : src.length % 4 = 0) (hne : src ≠ []) :
    ∃ bytes : List Nat,
      base64Decode src = DecodeResult.buffer bytes bytes.length ∧
      base64DecodeWin src = DecodeResult.buffer bytes bytes.length ∧
      bytes.length = src.length / 4 * 3
        - (if src.getD (src.length - 1) 0 = 61 then 1 else 0)
        - (if src.getD (src.length - 2) 0 = 61 then 1 else 0) :=
  base64Decode_of_pos src h4 hne

/-- C2, amended, at the string `a?b=`. -/
theorem base64Decode_accepts_every_multiple_of_four_witness :
    (ascii "a?b=").length % 4 = 0 ∧ ascii "a?b=" ≠ [] ∧
      ∃ bytes : List Nat,
        base64Decode (ascii "a?b=") = DecodeResult.buffer bytes bytes.length ∧
        base64DecodeWin (ascii "a?b=") = DecodeResult.buffer bytes bytes.length ∧
        bytes.length = (ascii "a?b=").length / 4 * 3
          - (if (ascii "a?b=").getD ((ascii "a?b=").length - 1) 0 = 61 then 1 else 0)
          - (if (ascii "a?b=").getD ((ascii "a?b=").length - 2) 0 = 61 then 1 else 0) :=
  ⟨by decide, by decide,
    base64Decode_accepts_every_multiple_of_four (ascii "a?b=") (by decide) (by decide)⟩

/-- C3: framing does not depend on fragmentation. For every sequence of non-empty
reads, the reader loop of `stdinReaderThread` hands to `cJSON_Parse` the same strings in
the same order, and posts the same messages in the same order, as when the bytes of all
the reads arrive in one read. -/
theorem stdinReaderThread_fragmentation (parse : CString → Option Json)
    (reads : List (List Nat)) (hreads : ∀ chunk ∈ reads, chunk ≠ []) :
    (stdinReaderThread parse reads WinReader.init).parsed
        = (stdinReaderThread parse [bytesOfReads reads] WinReader.init).parsed ∧
      (stdinReaderThread parse reads WinReader.init).posted
        = (stdinReaderThread parse [bytesOfReads reads] WinReader.init).posted := by
  have hinit : memchr WinReader.init.buf 10 = none := rfl
  rw [stdinReaderThread_eq_scan parse reads hreads _ hinit]
  by_cases he : bytesOfReads reads = []
  · rw [he]
    simp only [stdinReaderThread, List.length_nil, gt_iff_lt, Nat.lt_irrefl, if_false,
      WinReader.init, List.append_nil]
    rw [scanLines_none [] [] (by rfl)]
    exact ⟨rfl, rfl⟩
  · have hone : ∀ chunk ∈ [bytesOfReads reads], chunk ≠ [] := by
      intro chunk hc
      rw [List.mem_singleton] at hc
      rw [hc]; exact he
    have e : bytesOfReads [bytesOfReads reads] = bytesOfReads reads := by
      simp only [bytesOfReads, List.append_nil]
    rw [stdinReaderThread_eq_scan parse [bytesOfReads reads] hone _ hinit, e]
    exact ⟨rfl, rfl⟩

/-- C3 at the stream `1\n0\n` cut into the reads `1`, `\n0`, `\n`. -/
theorem stdinReaderThread_fragmentation_witness :
    (∀ chunk ∈ [[49], [10, 48], [10]], chunk ≠ ([] : List Nat)) ∧
      (stdinReaderThread toyParse [[49], [10, 48], [10]] WinReader.init).parsed
        = (stdinReaderThread toyParse [bytesOfReads [[49], [10, 48], [10]]]
            WinReader.init).parsed ∧
      (stdinReaderThread toyParse [[49], [10, 48], [10]] WinReader.init).posted
        = (stdinReaderThread toyParse [bytesOfReads [[49], [10, 48], [10]]]
            WinReader.init).posted :=
  ⟨by decide, stdinReaderThread_fragmentation toyParse [[49], [10, 48], [10]] (by decide)⟩

/-- C4: malformed lines are dropped and nothing else is. For every stream made of
newline-terminated lines, however it is cut into non-empty reads, the Windows reader
posts exactly the parse results of the lines `cJSON_Parse` accepts, in order, followed
by `WM_CLOSE`, and the Linux reader queues exactly the same parse results, in order,
followed by `gtk_main_quit`; a rejected line posts nothing and does not stop the lines
after it. (`cJSON_Parse` rejects the empty string.) -/
theorem readers_post_exactly_the_parsable_lines (parse : CString → Option Json)
    (hparse : parse [] = none) (lines : List (List Nat)) (hlines : ∀ l ∈ lines, 10 ∉ l)
    (reads : List (List Nat)) (hreads : ∀ chunk ∈ reads, chunk ≠ [])
    (hbytes : bytesOfReads reads = streamOfLines lines) :
    (stdinReaderThread parse reads WinReader.init).posted
        = (parsedMessages parse lines).map WinMsg.stdinCmd ++ [WinMsg.close] ∧
      (stdinReader parse (streamOfLines lines) LinuxReader.init).idle
        = (parsedMessages parse lines).map IdleSource.processCmd ++ [IdleSource.mainQuit] := by
  constructor
  · have hinit : memchr WinReader.init.buf 10 = none := rfl
    rw [stdinReaderThread_eq_scan parse reads hreads _ hinit, hbytes]
    simp only [WinReader.init, List.nil_append]
    rw [scanLines_streamOfLines parse lines hlines]
    simp
  · rw [stdinReader_streamOfLines parse hparse lines hlines]
    simp [LinuxReader.init]

/-- C4 at the stream `1\nx\n0\n`, one invalid line between two valid messages, cut into
the reads `1\nx` and `\n0\n`: exactly the two messages are posted, in order. -/
theorem readers_post_exactly_the_parsable_lines_witness :
    toyParse [] = none ∧ (∀ l ∈ [[49], [120], [48]], 10 ∉ l) ∧
      (∀ chunk ∈ [[49, 10, 120], [10, 48, 10]], chunk ≠ ([] : List Nat)) ∧
      bytesOfReads [[49, 10, 120], [10, 48, 10]] = streamOfLines [[49], [120], [48]] ∧
      parsedMessages toyParse [[49], [120], [48]] = [Json.jtrue, Json.jfalse] ∧
      (stdinReaderThread toyParse [[49, 10, 120], [10, 48, 10]] WinReader.init).posted
        = (parsedMessages toyParse [[49], [120], [48]]).map WinMsg.stdinCmd ++ [WinMsg.close] ∧
      (stdinReader toyParse (streamOfLines [[49], [120], [48]]) LinuxReader.init).idle
        = (parsedMessages toyParse [[49], [120], [48]]).map IdleSource.processCmd
          ++ [IdleSource.mainQuit] :=
  ⟨rfl, by decide, by decide, by decide, rfl,
    readers_post_exactly_the_parsable_lines toyParse rfl [[49], [120], [48]] (by decide)
      [[49, 10, 120], [10, 48, 10]] (by decide) (by decide)⟩

/-- C5 as stated fails, in each of its two parts. (2): under `B` of 4097 leaves the
dispatch id 4097 is issued (it is the id of the 4097th native item) and resolves to no
entry; under `B` of one leaf whose string id has 256 bytes, the dispatch id 1 resolves
to the first 255 bytes, not to the string id. (1): after `A` of 65537 leaves and `B` of
one leaf `b`, the dispatch id 65537 was issued under `A` only, and `WM_COMMAND`, which
compares `LOWORD(wParam)`, resolves it to `b`. -/
theorem registry_rebuild_isolation_fails :
    (∃ sA sB, wmStdinCmd sampleWinApi (setMenuMsg []) sampleWinState = .ok sA ∧
        wmStdinCmd sampleWinApi (setMenuMsg (manyLeaves 4097)) sA = .ok sB ∧
        (menuCmdIds sB.gMenu)[4096]? = some 4097 ∧ resolve sB.reg 4097 = none) ∧
      (∃ sA sB, wmStdinCmd sampleWinApi (setMenuMsg []) sampleWinState = .ok sA ∧
        wmStdinCmd sampleWinApi (setMenuMsg [leafItem [] longId]) sA = .ok sB ∧
        (menuCmdIds sB.gMenu)[0]? = some 1 ∧
        resolve sB.reg 1 = some (List.replicate 255 97) ∧
        List.replicate 255 97 ≠ longId) ∧
      (∃ sA sB, wmStdinCmd sampleWinApi (setMenuMsg (manyLeaves 65537)) sampleWinState = .ok sA ∧
        wmStdinCmd sampleWinApi (setMenuMsg [leafItem [] (ascii "b")]) sA = .ok sB ∧
        65537 ∈ menuCmdIds sA.gMenu ∧ 65537 ∉ menuCmdIds sB.gMenu ∧
        resolve sB.reg 65537 = some (ascii "b")) := by
  have hM : MAX_MENU_ITEMS = 4096 := rfl
  refine ⟨?_, ?_, ?_⟩
  · obtain ⟨sA, sB, hA, hB, _, eM, eR⟩ :=
      setMenu_twice sampleWinApi [] (manyLeaves 4097) sampleWinState
    have hlen : (preorderLeafIds (manyLeaves 4097)).length = 4097 := by
      rw [preorderLeafIds_manyLeaves, List.length_replicate]
    have hlow : LOWORD 4097 = 4097 := by decide
    refine ⟨sA, sB, hA, hB, ?_, ?_⟩
    · rw [eM]
      exact cmdId_of_kth_leaf (manyLeaves 4097) 4097 (by omega) (by omega) (by omega)
    · rw [eR, resolve_after_build, hlow, hlen, if_neg (by omega)]
  · obtain ⟨sA, sB, hA, hB, _, eM, eR⟩ :=
      setMenu_twice sampleWinApi [] [leafItem [] longId] sampleWinState
    have hids : preorderLeafIds [leafItem [] longId] = [longId] := by
      rw [preorderLeafIds_leafItem, preorderLeafIds]
    have hlen : (preorderLeafIds [leafItem [] longId]).length = 1 := by rw [hids]; rfl
    refine ⟨sA, sB, hA, hB, ?_, ?_, ?_⟩
    · rw [eM]
      exact cmdId_of_kth_leaf [leafItem [] longId] 1 (by omega) (by omega) (by omega)
    · rw [eR, resolve_kth_leaf _ 1 (by omega) (by omega) (by omega), hids]
      exact congrArg some strncpy255_longId
    · intro h
      have := congrArg List.length h
      rw [longId, List.length_replicate, List.length_replicate] at this
      omega
  · obtain ⟨sA, sB, hA, hB, eA, eM, eR⟩ :=
      setMenu_twice sampleWinApi (manyLeaves 65537) [leafItem [] (ascii "b")] sampleWinState
    have hlen : (preorderLeafIds (manyLeaves 65537)).length = 65537 := by
      rw [preorderLeafIds_manyLeaves, List.length_replicate]
    have hids : preorderLeafIds [leafItem [] (ascii "b")] = [ascii "b"] := by
      rw [preorderLeafIds_leafItem, preorderLeafIds]
    have hlow : LOWORD 65537 = 1 := by decide
    refine ⟨sA, sB, hA, hB, ?_, ?_, ?_⟩
    · rw [eA]
      exact List.getElem?_mem
        (cmdId_of_kth_leaf (manyLeaves 65537) 65537 (by omega) (by omega) (by omega))
    · rw [eM, buildMenuItemsWin_cmdIds, hids]
      simp [issuedIds, Registry.reset]
    · rw [eR, resolve_after_build, hlow, hids, if_pos (by simp [hM])]
      rfl

/-- C5, amended: after `setMenu(A)` then `setMenu(B)`, (1) every dispatch id below 65536
(`WM_COMMAND` compares the low word only) that was issued under `A` and is not issued
under `B` resolves to no entry, and `WM_COMMAND` for it emits nothing; (2) for every
`k` from 1 to the number of leaves of `B`, at most `MAX_MENU_ITEMS`, the `k`-th native
item of `B` has dispatch id `k`, and `k` resolves to the first 255 bytes of the string
id of the `k`-th leaf of `B` in pre-order. -/
theorem registry_rebuild_isolation (api : WinApi) (A B : List Json) (s : WinState) :
    ∃ sA sB, wmStdinCmd api (setMenuMsg A) s = .ok sA ∧
      wmStdinCmd api (setMenuMsg B) sA = .ok sB ∧
      (∀ k, k < 65536 → k ∈ menuCmdIds sA.gMenu → k ∉ menuCmdIds sB.gMenu →
        resolve sB.reg k = none ∧ wmCommand k sB = sB) ∧
      (∀ k, 1 ≤ k → k ≤ (preorderLeafIds B).length → k ≤ MAX_MENU_ITEMS →
        (menuCmdIds sB.gMenu)[k - 1]? = some k ∧
        resolve sB.reg k = some (strncpy255 ((preorderLeafIds B).getD (k - 1) []))) := by
  have hM : MAX_MENU_ITEMS = 4096 := rfl
  obtain ⟨sA, sB, hA, hB, _, eM, eR⟩ := setMenu_twice api A B s
  refine ⟨sA, sB, hA, hB, ?_, ?_⟩
  · intro k hk _ hB'
    have hlow : LOWORD k = k := by unfold LOWORD; omega
    have hnone : resolve sB.reg k = none := by
      cases hr : resolve sB.reg k with
      | none => rfl
      | some id =>
        rw [eR] at hr
        have := resolve_mem_cmdIds B k id hr
        rw [hlow, ← eM] at this
        exact absurd this hB'
    exact ⟨hnone, wmCommand_of_not_resolve k _ hnone⟩
  · intro k h1 hk hmax
    rw [eM, eR]
    exact ⟨cmdId_of_kth_leaf B k h1 hk (by omega), resolve_kth_leaf B k h1 hk hmax⟩

/-- C5, amended, at `A` = the scenario list (ids 1 and 2), `B` = one leaf `b` (id 1):
the id 2 is stale, the id 1 resolves to `b`. -/
theorem registry_rebuild_isolation_witness :
    ∃ sA sB, wmStdinCmd sampleWinApi (setMenuMsg scenarioItems) sampleWinState = .ok sA ∧
      wmStdinCmd sampleWinApi (setMenuMsg [leafItem [] (ascii "b")]) sA = .ok sB ∧
      (2 < 65536 ∧ 2 ∈ menuCmdIds sA.gMenu ∧ 2 ∉ menuCmdIds sB.gMenu ∧
        resolve sB.reg 2 = none ∧ wmCommand 2 sB = sB) ∧
      (1 ≤ 1 ∧ 1 ≤ (preorderLeafIds [leafItem [] (ascii "b")]).length ∧ 1 ≤ MAX_MENU_ITEMS ∧
        (menuCmdIds sB.gMenu)[1 - 1]? = some 1 ∧
        resolve sB.reg 1
          = some (strncpy255 ((preorderLeafIds [leafItem [] (ascii "b")]).getD (1 - 1) []))) := by
  obtain ⟨sA, sB, hA, hB, h1, h2⟩ :=
    registry_rebuild_isolation sampleWinApi scenarioItems [leafItem [] (ascii "b")] sampleWinState
  obtain ⟨sA', sB', hA', hB', eA, eM, _⟩ :=
    setMenu_twice sampleWinApi scenarioItems [leafItem [] (ascii "b")] sampleWinState
  have esA : sA' = sA := Except.ok.inj (hA'.symm.trans hA)
  subst esA
  have esB : sB' = sB := Except.ok.inj (hB'.symm.trans hB)
  subst esB
  have hidsB : preorderLeafIds [leafItem [] (ascii "b")] = [ascii "b"] := by
    rw [preorderLeafIds_leafItem, preorderLeafIds]
  have memA : 2 ∈ menuCmdIds sA'.gMenu := by
    rw [eA, buildMenuItemsWin_cmdIds, preorderLeafIds_scenario]
    simp [issuedIds, Registry.reset, bumpCmdId]
  have memB : 2 ∉ menuCmdIds sB'.gMenu := by
    rw [eM, buildMenuItemsWin_cmdIds, hidsB]
    simp [issuedIds, Registry.reset]
  have hl : 1 ≤ (preorderLeafIds [leafItem [] (ascii "b")]).length := by rw [hidsB]; simp
  have hmax : 1 ≤ MAX_MENU_ITEMS := by decide
  exact ⟨sA', sB', hA, hB, ⟨by decide, memA, memB, h1 2 (by decide) memA memB⟩,
    ⟨by decide, hl, hmax, h2 1 (by decide) hl hmax⟩⟩

/-- C6 as stated fails. For the item list of one leaf whose string id `longId` has 256
bytes, the leaf gets dispatch id 1 and activating it emits `clicked` with the first 255
bytes, not with the leaf's string id. For an item list of 5000 leaves, the 5000th leaf
gets dispatch id 5000 and activating it emits nothing. -/
theorem preorder_dispatch_ids_fails :
    (∃ s1, wmStdinCmd sampleWinApi (setMenuMsg [leafItem (ascii "A") longId]) sampleWinState
          = .ok s1 ∧
        preorderLeafIds [leafItem (ascii "A") longId] = [longId] ∧
        (menuCmdIds s1.gMenu)[0]? = some 1 ∧
        wmCommand 1 s1 = { s1 with out := s1.out ++ [clicked (List.replicate 255 97)] } ∧
        List.replicate 255 97 ≠ longId) ∧
      (∃ s1, wmStdinCmd sampleWinApi (setMenuMsg (manyLeaves 5000)) sampleWinState = .ok s1 ∧
        (preorderLeafIds (manyLeaves 5000)).length = 5000 ∧
        (menuCmdIds s1.gMenu)[4999]? = some 5000 ∧
        wmCommand 5000 s1 = s1) := by
  have hM : MAX_MENU_ITEMS = 4096 := rfl
  constructor
  · obtain ⟨s1, h1, eM, eR, _⟩ :=
      setMenu_once sampleWinApi [leafItem (ascii "A") longId] sampleWinState
    have hids : preorderLeafIds [leafItem (ascii "A") longId] = [longId] := by
      rw [preorderLeafIds_leafItem, preorderLeafIds]
    have hlen : (preorderLeafIds [leafItem (ascii "A") longId]).length = 1 := by
      rw [hids]; rfl
    refine ⟨s1, h1, hids, ?_, ?_, ?_⟩
    · rw [eM]
      exact cmdId_of_kth_leaf _ 1 (by omega) (by omega) (by omega)
    · apply wmCommand_of_resolve
      rw [eR, resolve_kth_leaf _ 1 (by omega) (by omega) (by omega), hids]
      exact congrArg some strncpy255_longId
    · intro h
      have := congrArg List.length h
      rw [longId, List.length_replicate, List.length_replicate] at this
      omega
  · obtain ⟨s1, h1, eM, eR, _⟩ := setMenu_once sampleWinApi (manyLeaves 5000) sampleWinState
    have hlen : (preorderLeafIds (manyLeaves 5000)).length = 5000 := by
      rw [preorderLeafIds_manyLeaves, List.length_replicate]
    have hlow : LOWORD 5000 = 5000 := by decide
    refine ⟨s1, h1, hlen, ?_, ?_⟩
    · rw [eM]
      exact cmdId_of_kth_leaf _ 5000 (by omega) (by omega) (by omega)
    · apply wmCommand_of_not_resolve
      rw [eR, resolve_after_build, hlow, hlen, if_neg (by omega)]

/-- C6, amended: for every item list, after `setMenu`, for every `k` from 1 to the
number of clickable leaves and at most `MAX_MENU_ITEMS`, the `k`-th leaf met in
pre-order is given dispatch id `k` (the `k`-th command entry of the native menu carries
it; submenus and separators carry none), and `WM_COMMAND` for `k` emits exactly one
`clicked` event, whose id is the first 255 bytes of that leaf's string id. -/
theorem preorder_dispatch_ids (api : WinApi) (items : List Json) (s : WinState) (k : Nat)
    (h1 : 1 ≤ k) (hk : k ≤ (preorderLeafIds items).length) (hmax : k ≤ MAX_MENU_ITEMS) :
    ∃ s1, wmStdinCmd api (setMenuMsg items) s = .ok s1 ∧
      (menuCmdIds s1.gMenu)[k - 1]? = some k ∧
      wmCommand k s1 =
        { s1 with
          out := s1.out ++ [clicked (strncpy255 ((preorderLeafIds items).getD (k - 1) []))] } := by
  have hM : MAX_MENU_ITEMS = 4096 := rfl
  obtain ⟨s1, hs, eM, eR, _⟩ := setMenu_once api items s
  refine ⟨s1, hs, ?_, ?_⟩
  · rw [eM]
    exact cmdId_of_kth_leaf items k h1 hk (by omega)
  · apply wmCommand_of_resolve
    rw [eR]
    exact resolve_kth_leaf items k h1 hk hmax

/-- C6, amended, on the end-to-end scenario of the spec: the leaves are `a` and `b` in
this order, `b` (inside the submenu) has dispatch id 2, and activating 2 emits
`clicked` with id `b`. -/
theorem preorder_dispatch_ids_witness :
    preorderLeafIds scenarioItems = [ascii "a", ascii "b"] ∧
      strncpy255 ((preorderLeafIds scenarioItems).getD (2 - 1) []) = ascii "b" ∧
      (1 ≤ 2 ∧ 2 ≤ (preorderLeafIds scenarioItems).length ∧ 2 ≤ MAX_MENU_ITEMS) ∧
      ∃ s1, wmStdinCmd sampleWinApi (setMenuMsg scenarioItems) sampleWinState = .ok s1 ∧
        (menuCmdIds s1.gMenu)[2 - 1]? = some 2 ∧
        wmCommand 2 s1 =
          { s1 with
            out := s1.out ++
              [clicked (strncpy255 ((preorderLeafIds scenarioItems).getD (2 - 1) []))] } := by
  have hl : 2 ≤ (preorderLeafIds scenarioItems).length := by
    rw [preorderLeafIds_scenario]; exact Nat.le_refl 2
  have hmax : 2 ≤ MAX_MENU_ITEMS := by decide
  have hb : strncpy255 ((preorderLeafIds scenarioItems).getD (2 - 1) []) = ascii "b" := by
    rw [preorderLeafIds_scenario]; rfl
  exact ⟨preorderLeafIds_scenario, hb, ⟨by decide, hl, hmax⟩,
    preorder_dispatch_ids sampleWinApi scenarioItems sampleWinState 2 (by decide) hl hmax⟩

/-- C7 as stated fails on Windows: `setMenu` with items `[]` makes live a menu with no
entry at all; `WndProc` substitutes no placeholder. -/
theorem windows_setMenu_empty_stays_empty :
    ∃ s1, wmStdinCmd sampleWinApi (setMenuMsg []) sampleWinState = .ok s1 ∧
      s1.gMenu = [] := by
  obtain ⟨s1, hs, eM, _, _⟩ := setMenu_once sampleWinApi [] sampleWinState
  refine ⟨s1, hs, ?_⟩
  rw [eM, buildMenuItemsWin]

/-- C7, amended: the substitution exists on Linux only. For every `setMenu` message the
Linux dispatcher makes live a menu with at least one top-level entry: for items `[]`
the disabled placeholder with empty label, for items `[\x7b"separator": true\x7d]` the
one separator. The Windows dispatcher makes live a menu with exactly one top-level
entry per element of `items`, so none for items `[]`. -/
theorem setMenu_placeholder_on_linux_only (api : WinApi) (m : Json) (items : List Json)
    (sl : LinuxState) (sw : WinState) (hm : methodOf m = some (ascii "setMenu")) :
    (∃ s1, processCmd m sl = .ok s1 ∧ 1 ≤ s1.gMenu.length) ∧
      processCmd (setMenuMsg []) sl
        = .ok { sl with gMenu := [placeholder], gBuildingMenu := false } ∧
      processCmd (setMenuMsg [Json.object [(ascii "separator", Json.jtrue)]]) sl
        = .ok { sl with gMenu := [GtkMenuItem.separator], gBuildingMenu := false } ∧
      (∃ s1, wmStdinCmd api (setMenuMsg items) sw = .ok s1 ∧
        s1.gMenu.length = items.length) := by
  refine ⟨⟨_, processCmd_setMenu m sl hm, linuxMenuOf_length _⟩, ?_, ?_, ?_⟩
  · rw [processCmd_setMenu _ sl (methodOf_setMenuMsg []), paramOf_setMenuMsg]
    rw [linuxMenuOf_of_no_children (some (Json.array [])) rfl]
  · rw [processCmd_setMenu _ sl (methodOf_setMenuMsg _), paramOf_setMenuMsg]
    have e : linuxMenuOf (some (Json.array [Json.object [(ascii "separator", Json.jtrue)]]))
        = [GtkMenuItem.separator] := by
      unfold linuxMenuOf
      simp only [cJSON_children, buildMenuItems_separator]
      rfl
    rw [e]
  · obtain ⟨s1, hs, eM, _, _⟩ := setMenu_once api items sw
    exact ⟨s1, hs, by rw [eM, buildMenuItemsWin_length]⟩

/-- C7, amended, at the message `setMenu` with items `[]` and the item list of the
scenario. -/
theorem setMenu_placeholder_on_linux_only_witness :
    methodOf (setMenuMsg []) = some (ascii "setMenu") ∧
      (∃ s1, processCmd (setMenuMsg []) sampleLinuxState = .ok s1 ∧ 1 ≤ s1.gMenu.length) ∧
      (∃ s1, wmStdinCmd sampleWinApi (setMenuMsg scenarioItems) sampleWinState = .ok s1 ∧
        s1.gMenu.length = scenarioItems.length) :=
  have h := setMenu_placeholder_on_linux_only sampleWinApi (setMenuMsg []) scenarioItems
    sampleLinuxState sampleWinState (methodOf_setMenuMsg [])
  ⟨methodOf_setMenuMsg [], h.1, h.2.2.2⟩

/-- C8 at the input where the code departs from it: the Windows dispatcher has no branch
for `quit`. For the message `\x7b"method": "quit"\x7d` the case `WM_STDIN_CMD` of `WndProc`
returns with the state as it was (the icon still shown, `PostQuitMessage` not called),
whereas `processCmd` on Linux sets the indicator passive and calls `gtk_main_quit`. -/
theorem windows_quit_is_ignored (api : WinApi) (sw : WinState) (sl : LinuxState) :
    wmStdinCmd api quitMsg sw = .ok sw ∧
      processCmd quitMsg sl
        = .ok { sl with status := IndicatorStatus.passive, mainQuit := true } :=
  ⟨wmStdinCmd_quit api quitMsg sw methodOf_quitMsg, processCmd_quit quitMsg sl methodOf_quitMsg⟩

/-- C9 as stated fails: the base64 string `!!!!` consists of characters outside the
alphabet, and applying `setIcon` with it on Linux changes the tray state: `gIconSeq`
advances, the file `trayjs-icon-1.png` is written with the bytes 4, 16, 64, and the
indicator is switched to the icon `trayjs-icon-1`. -/
theorem setIcon_invalid_chars_change_state :
    (∀ c ∈ ascii "!!!!", c ∉ b64Alphabet ∧ c ≠ 61) ∧
      ∃ s1, processCmd (setIconMsg (ascii "!!!!")) sampleLinuxState = .ok s1 ∧
        sampleLinuxState.gIconSeq = 0 ∧ s1.gIconSeq = 1 ∧
        sampleLinuxState.iconFiles = [] ∧ s1.iconFiles = [(iconFileOf 1, [4, 16, 64])] ∧
        s1.iconName = iconNameOf 1 := by
  have hd : base64Decode (ascii "!!!!") = DecodeResult.buffer [4, 16, 64] 3 := by decide
  exact ⟨by decide, _,
    processCmd_setIcon_buffer _ sampleLinuxState _ _ _ (methodOf_setIconMsg _)
      (stringValue_setIconMsg _) hd,
    rfl, rfl, rfl, rfl, rfl⟩

/-- C9, amended: `setIcon` fails silently exactly when the length of the base64 string
is not a multiple of 4: then applying the command leaves the whole tray state unchanged
on both platforms and reads nothing outside the string. A non-empty string whose length
is a multiple of 4 always decodes, whatever its characters and padding, and on Linux
the command then advances `gIconSeq`, writes the icon file and switches the icon. -/
theorem setIcon_silent_failure (api : WinApi) (m : Json) (b64 : CString)
    (sl : LinuxState) (sw : WinState)
    (hm : methodOf m = some (ascii "setIcon"))
    (hb : cJSON_GetStringValue (paramOf m (ascii "base64")) = some b64) :
    (b64.length % 4 ≠ 0 → processCmd m sl = .ok sl ∧ wmStdinCmd api m sw = .ok sw) ∧
      (b64.length % 4 = 0 → b64 ≠ [] →
        ∃ d : List Nat, processCmd m sl =
          .ok { sl with
            gIconSeq := sl.gIconSeq + 1,
            iconFiles := sl.iconFiles ++ [(iconFileOf (sl.gIconSeq + 1), d)],
            iconName := iconNameOf (sl.gIconSeq + 1) }) := by
  constructor
  · intro h4
    have hn := base64Decode_null_iff b64
    exact ⟨processCmd_setIcon_null m sl b64 hm hb (hn.1.mpr h4),
      wmStdinCmd_setIcon_null api m sw b64 hm hb (hn.2.mpr h4)⟩
  · intro h4 hne
    obtain ⟨bytes, hd, _, _⟩ := base64Decode_of_pos b64 h4 hne
    refine ⟨bytes, ?_⟩
    rw [processCmd_setIcon_buffer m sl b64 bytes bytes.length hm hb hd, List.take_length]

/-- C9, amended, at the base64 strings `abc` (length 3) and `a?b=` (length 4). -/
theorem setIcon_silent_failure_witness :
    ((ascii "abc").length % 4 ≠ 0 ∧
        processCmd (setIconMsg (ascii "abc")) sampleLinuxState = .ok sampleLinuxState ∧
        wmStdinCmd sampleWinApi (setIconMsg (ascii "abc")) sampleWinState = .ok sampleWinState) ∧
      ((ascii "a?b=").length % 4 = 0 ∧ ascii "a?b=" ≠ [] ∧
        ∃ d : List Nat, processCmd (setIconMsg (ascii "a?b=")) sampleLinuxState =
          .ok { sampleLinuxState with
            gIconSeq := sampleLinuxState.gIconSeq + 1,
            iconFiles := sampleLinuxState.iconFiles
              ++ [(iconFileOf (sampleLinuxState.gIconSeq + 1), d)],
            iconName := iconNameOf (sampleLinuxState.gIconSeq + 1) }) :=
  ⟨⟨by decide,
      (setIcon_silent_failure sampleWinApi (setIconMsg (ascii "abc")) (ascii "abc")
        sampleLinuxState sampleWinState (methodOf_setIconMsg _) (stringValue_setIconMsg _)).1
        (by decide)⟩,
    ⟨by decide, by decide,
      (setIcon_silent_failure sampleWinApi (setIconMsg (ascii "a?b=")) (ascii "a?b=")
        sampleLinuxState sampleWinState (methodOf_setIconMsg _) (stringValue_setIconMsg _)).2
        (by decide) (by decide)⟩⟩

/-- C10 as stated fails: `setMenu` without `params` is not a no-op. On Linux it replaces
the live menu (one entry `Open`) by the placeholder menu; on Windows it replaces the
live menu by an empty one and clears the registry. -/
theorem setMenu_without_items_changes_state :
    methodOf setMenuNoParams = some (ascii "setMenu") ∧
      paramOf setMenuNoParams (ascii "items") = none ∧
      (∃ s1, processCmd setMenuNoParams sampleLinuxState = .ok s1 ∧
        s1.gMenu = [placeholder] ∧ s1.gMenu ≠ sampleLinuxState.gMenu) ∧
      (∃ s1, wmStdinCmd sampleWinApi setMenuNoParams sampleWinState = .ok s1 ∧
        s1.gMenu = [] ∧ s1.reg.gMenuIdMap = [] ∧
        sampleWinState.reg.gMenuIdMap = [(1, ascii "open")]) := by
  have hm : methodOf setMenuNoParams = some (ascii "setMenu") := by rfl
  have hp : paramOf setMenuNoParams (ascii "items") = none := by rfl
  refine ⟨hm, hp, ⟨_, processCmd_setMenu _ _ hm, ?_, ?_⟩,
    ⟨_, wmStdinCmd_setMenu _ _ _ hm, ?_, ?_, rfl⟩⟩
  · rw [hp]; rfl
  · rw [hp]
    intro h
    have h0 := List.head_eq_of_cons_eq h
    cases h0
  · rw [hp]
    show (buildMenuItemsWin [] Registry.reset).1 = []
    rw [buildMenuItemsWin_nil]
  · rw [hp]
    show (buildMenuItemsWin [] Registry.reset).2.gMenuIdMap = []
    rw [buildMenuItemsWin_nil]
    rfl

/-- C10, amended: a recognised method whose required field is missing or mistyped emits
no event and does not touch an absent value in these cases. On Linux, `setIcon` without
a string `base64` and `setTooltip` without a string `text` (the field or `params`
missing or of another JSON type) leave the whole tray state unchanged. `setMenu` whose
`items` is missing or has no element is not a no-op on either platform: it replaces the
live menu by the menu of an empty item list, on Linux the single disabled placeholder,
on Windows an empty menu with the registry cleared and the id counter back at 1; icon,
tooltip and output stay as they were. -/
theorem validation_errors (api : WinApi) (m : Json) (sl : LinuxState) (sw : WinState) :
    (methodOf m = some (ascii "setIcon") →
        cJSON_GetStringValue (paramOf m (ascii "base64")) = none →
        processCmd m sl = .ok sl) ∧
      (methodOf m = some (ascii "setTooltip") →
        cJSON_GetStringValue (paramOf m (ascii "text")) = none →
        processCmd m sl = .ok sl) ∧
      (methodOf m = some (ascii "setMenu") →
        cJSON_children (paramOf m (ascii "items")) = [] →
        processCmd m sl = .ok { sl with gMenu := [placeholder], gBuildingMenu := false } ∧
        wmStdinCmd api m sw = .ok { sw with gMenu := [], reg := Registry.reset }) := by
  refine ⟨processCmd_setIcon_absent m sl, processCmd_setTooltip_absent m sl, ?_⟩
  intro hm hc
  constructor
  · rw [processCmd_setMenu m sl hm, linuxMenuOf_of_no_children _ hc]
  · rw [wmStdinCmd_setMenu api m sw hm, hc, buildMenuItemsWin_nil]

/-- C10, amended, at `setIcon` without `params`, `setTooltip` with a number as `text`,
and `setMenu` without `params`. -/
theorem validation_errors_witness :
    (methodOf setIconNoParams = some (ascii "setIcon") ∧
        cJSON_GetStringValue (paramOf setIconNoParams (ascii "base64")) = none ∧
        processCmd setIconNoParams sampleLinuxState = .ok sampleLinuxState) ∧
      (methodOf setTooltipNumber = some (ascii "setTooltip") ∧
        cJSON_GetStringValue (paramOf setTooltipNumber (ascii "text")) = none ∧
        processCmd setTooltipNumber sampleLinuxState = .ok sampleLinuxState) ∧
      (methodOf setMenuNoParams = some (ascii "setMenu") ∧
        cJSON_children (paramOf setMenuNoParams (ascii "items")) = [] ∧
        processCmd setMenuNoParams sampleLinuxState
          = .ok { sampleLinuxState with gMenu := [placeholder], gBuildingMenu := false } ∧
        wmStdinCmd sampleWinApi setMenuNoParams sampleWinState
          = .ok { sampleWinState with gMenu := [], reg := Registry.reset }) :=
  have h1 : methodOf setIconNoParams = some (ascii "setIcon") := by rfl
  have h1' : cJSON_GetStringValue (paramOf setIconNoParams (ascii "base64")) = none := by rfl
  have h2 : methodOf setTooltipNumber = some (ascii "setTooltip") := by rfl
  have h2' : cJSON_GetStringValue (paramOf setTooltipNumber (ascii "text")) = none := by rfl
  have h3 : methodOf setMenuNoParams = some (ascii "setMenu") := by rfl
  have h3' : cJSON_children (paramOf setMenuNoParams (ascii "items")) = [] := by rfl
  ⟨⟨h1, h1',
      (validation_errors sampleWinApi setIconNoParams sampleLinuxState sampleWinState).1 h1 h1'⟩,
    ⟨h2, h2',
      (validation_errors sampleWinApi setTooltipNumber sampleLinuxState sampleWinState).2.1
        h2 h2'⟩,
    ⟨h3, h3',
      (validation_errors sampleWinApi setMenuNoParams sampleLinuxState sampleWinState).2.2
        h3 h3'⟩⟩

/-- C11 at the input where the code departs from it: for the parsed line `\x7b\x7d`, which
has no `method`, the Windows dispatcher hands the `NULL` it got from
`cJSON_GetStringValue` to `strcmp` instead of completing, whereas `processCmd` on Linux
tests `!meth` first and returns with the state as it was. -/
theorem windows_absent_method_is_dereferenced (api : WinApi) (sw : WinState)
    (sl : LinuxState) :
    methodOf emptyObjectMsg = none ∧
      wmStdinCmd api emptyObjectMsg sw = .error Fault.nullString ∧
      processCmd emptyObjectMsg sl = .ok sl :=
  have h : methodOf emptyObjectMsg = none := by rfl
  ⟨h, wmStdinCmd_no_method api emptyObjectMsg sw h, processCmd_no_method emptyObjectMsg sl h⟩

/-- C12 as stated fails: in the item list of 65537 leaves whose first leaf has the id
`first`, the 65537th leaf lies beyond the first 4096 and is appended with its own
dispatch id 65537, and `WM_COMMAND` for that id, comparing `LOWORD(wParam) = 1`, finds
the entry of the first leaf and emits `clicked` with id `first`. -/
theorem registry_overflow_low_word_alias :
    ∃ s1, wmStdinCmd sampleWinApi (setMenuMsg overflowItems) sampleWinState = .ok s1 ∧
      (preorderLeafIds overflowItems).length = 65537 ∧
      MAX_MENU_ITEMS < 65537 ∧
      (menuCmdIds s1.gMenu)[65536]? = some 65537 ∧
      resolve s1.reg 65537 = some (ascii "first") ∧
      wmCommand 65537 s1 = { s1 with out := s1.out ++ [clicked (ascii "first")] } := by
  have hM : MAX_MENU_ITEMS = 4096 := rfl
  obtain ⟨s1, hs, eM, eR, _⟩ := setMenu_once sampleWinApi overflowItems sampleWinState
  have hlen : (preorderLeafIds overflowItems).length = 65537 := by
    rw [preorderLeafIds_overflowItems, List.length_cons, List.length_replicate]
  have hlow : LOWORD 65537 = 1 := by decide
  have hfirst : (preorderLeafIds overflowItems)[1 - 1]? = some (ascii "first") := by
    rw [overflowItems, preorderLeafIds_leafItem]
    exact List.getElem?_cons_zero
  have hres : resolve s1.reg 65537 = some (ascii "first") := by
    rw [eR, resolve_after_build, hlow, if_pos ⟨Nat.le_refl 1, by omega⟩, hfirst]
    rfl
  refine ⟨s1, hs, hlen, by omega, ?_, hres, wmCommand_of_resolve _ _ _ hres⟩
  rw [eM]
  exact cmdId_of_kth_leaf overflowItems 65537 (by omega) (by omega) (by omega)

/-- C12, amended: for every item list, after `setMenu` the count `gMenuIdCount` is the
number of leaves or `MAX_MENU_ITEMS`, whichever is smaller, and no step of the build
takes it above `MAX_MENU_ITEMS`; an entry is written only at an index below
`MAX_MENU_ITEMS` and holds at most 255 bytes of id. Every leaf beyond the first 4096 is
still appended to the native menu with its own dispatch id `k`, its rank in pre-order,
and `WM_COMMAND` for `k` emits nothing when `LOWORD(k)` is not among 1 to 4096, so for
every `k` from 4097 to 65535. -/
theorem registry_overflow_degrades (api : WinApi) (items : List Json) (s : WinState) :
    (∀ (reg : Registry) (itemId : CString), reg.gMenuIdCount ≤ MAX_MENU_ITEMS →
        (registerLeaf reg itemId).gMenuIdCount ≤ MAX_MENU_ITEMS ∧
        ((registerLeaf reg itemId).gMenuIdMap = reg.gMenuIdMap ∨
          (reg.gMenuIdCount < MAX_MENU_ITEMS ∧
            (registerLeaf reg itemId).gMenuIdMap
              = reg.gMenuIdMap ++ [(reg.gNextCmdId, strncpy255 itemId)]))) ∧
      ∃ s1, wmStdinCmd api (setMenuMsg items) s = .ok s1 ∧
        s1.reg.gMenuIdCount = min MAX_MENU_ITEMS (preorderLeafIds items).length ∧
        s1.reg.gMenuIdCount ≤ MAX_MENU_ITEMS ∧
        (∀ e ∈ s1.reg.gMenuIdMap, e.2.length ≤ 255) ∧
        (∀ k, MAX_MENU_ITEMS < k → k ≤ (preorderLeafIds items).length → k < 2 ^ 32 →
          (menuCmdIds s1.gMenu)[k - 1]? = some k) ∧
        (∀ k, MAX_MENU_ITEMS < k → k ≤ (preorderLeafIds items).length →
          ¬ (1 ≤ LOWORD k ∧ LOWORD k ≤ MAX_MENU_ITEMS) →
          resolve s1.reg k = none ∧ wmCommand k s1 = s1) := by
  have hM : MAX_MENU_ITEMS = 4096 := rfl
  constructor
  · intro reg itemId h
    refine ⟨registerLeaf_count_le reg itemId h, ?_⟩
    rcases registerLeaf_cases reg itemId with ⟨hlt, e⟩ | ⟨_, e⟩
    · exact Or.inr ⟨hlt, e⟩
    · exact Or.inl e
  · obtain ⟨s1, hs, eM, eR, _⟩ := setMenu_once api items s
    refine ⟨s1, hs, ?_, ?_, ?_, ?_, ?_⟩
    · rw [eR]; exact buildMenuItemsWin_reset_count items
    · rw [eR, buildMenuItemsWin_reset_count]; omega
    · rw [eR]; exact buildMenuItemsWin_reset_id_length items
    · intro k hk hle h32
      rw [eM]
      exact cmdId_of_kth_leaf items k (by omega) hle h32
    · intro k _ _ hlow
      have hnone : resolve s1.reg k = none := by
        rw [eR]; exact resolve_none_of_low_word items k hlow
      exact ⟨hnone, wmCommand_of_not_resolve k s1 hnone⟩

/-- C12, amended, at an item list of 5000 leaves and its last leaf, `k = 5000`. -/
theorem registry_overflow_degrades_witness :
    ∃ s1, wmStdinCmd sampleWinApi (setMenuMsg (manyLeaves 5000)) sampleWinState = .ok s1 ∧
      s1.reg.gMenuIdCount = min MAX_MENU_ITEMS (preorderLeafIds (manyLeaves 5000)).length ∧
      (MAX_MENU_ITEMS < 5000 ∧ 5000 ≤ (preorderLeafIds (manyLeaves 5000)).length ∧
        5000 < 2 ^ 32 ∧ ¬ (1 ≤ LOWORD 5000 ∧ LOWORD 5000 ≤ MAX_MENU_ITEMS)) ∧
      (menuCmdIds s1.gMenu)[5000 - 1]? = some 5000 ∧
      resolve s1.reg 5000 = none ∧ wmCommand 5000 s1 = s1 := by
  obtain ⟨s1, hs, hc, _, _, hid, hno⟩ :=
    (registry_overflow_degrades sampleWinApi (manyLeaves 5000) sampleWinState).2
  have hlen : (preorderLeafIds (manyLeaves 5000)).length = 5000 := by
    rw [preorderLeafIds_manyLeaves, List.length_replicate]
  have h1 : MAX_MENU_ITEMS < 5000 := by decide
  have h2 : 5000 ≤ (preorderLeafIds (manyLeaves 5000)).length := Nat.le_of_eq hlen.symm
  have h3 : (5000 : Nat) < 2 ^ 32 := by decide
  have h4 : ¬ (1 ≤ LOWORD 5000 ∧ LOWORD 5000 ≤ MAX_MENU_ITEMS) := by decide
  exact ⟨s1, hs, hc, ⟨h1, h2, h3, h4⟩, hid 5000 h1 h2 h3, hno 5000 h1 h2 h4⟩

/-- C13 as stated fails on Linux: for the stream that consists of the byte `1` alone,
without newline, the Windows reader parses and posts nothing but `WM_CLOSE`, and the
Linux reader parses the unterminated bytes and queues `processCmd` for the message
before `gtk_main_quit`. -/
theorem linux_reader_parses_unterminated_tail :
    (10 : Nat) ∉ [49] ∧
      (stdinReaderThread toyParse [[49]] WinReader.init).parsed = [] ∧
      (stdinReaderThread toyParse [[49]] WinReader.init).posted = [WinMsg.close] ∧
      (stdinReader toyParse [49] LinuxReader.init).parsed = [[49]] ∧
      (stdinReader toyParse [49] LinuxReader.init).idle
        = [IdleSource.processCmd Json.jtrue, IdleSource.mainQuit] := by
  have hno : (10 : Nat) ∉ [49] := by decide
  have hw := stdinReaderThread_eq_scan toyParse [[49]] (by decide) WinReader.init rfl
  have hs : scanLines toyParse (WinReader.init.buf ++ bytesOfReads [[49]])
      WinReader.init.parsed WinReader.init.posted
      = { buf := [49], parsed := [], posted := [] } :=
    scanLines_none [] [] (by rfl)
  rw [hs] at hw
  have hl := stdinReader_tail toyParse 49 [] hno LinuxReader.init
  have hp : toyParse (cstr [49]) = some Json.jtrue := by rfl
  rw [hp] at hl
  rw [hw, hl]
  exact ⟨hno, rfl, rfl, rfl, rfl⟩

/-- C13, amended: every input stream is a sequence of newline-terminated records
followed by a tail without newline. On Windows, however the stream is cut into reads,
exactly the records are handed to `cJSON_Parse` and the messages posted are their
parse results; the tail is never parsed. On Linux the tail is parsed as one more
record when the stream ends, and dispatched when it parses. So the two readers
dispatch the same sequence of messages when the tail is empty or does not parse, in
particular for every stream that ends with a newline, and Linux dispatches one message
more when the tail parses. (`cJSON_Parse` rejects the empty string.) -/
theorem readers_on_unterminated_tail (parse : CString → Option Json)
    (hparse : parse [] = none) (stream : List Nat) (reads : List (List Nat))
    (hreads : ∀ chunk ∈ reads, chunk ≠ []) (hbytes : bytesOfReads reads = stream) :
    ∃ (lines : List (List Nat)) (tail : List Nat),
      stream = streamOfLines lines ++ tail ∧ (∀ l ∈ lines, 10 ∉ l) ∧ 10 ∉ tail ∧
      (stdinReaderThread parse reads WinReader.init).parsed = lines.map cstr ∧
      (stdinReaderThread parse reads WinReader.init).posted
        = (parsedMessages parse lines).map WinMsg.stdinCmd ++ [WinMsg.close] ∧
      (parse (cstr tail) = none →
        (stdinReader parse stream LinuxReader.init).idle
          = (parsedMessages parse lines).map IdleSource.processCmd
            ++ [IdleSource.mainQuit]) ∧
      (∀ m, parse (cstr tail) = some m →
        (stdinReader parse stream LinuxReader.init).idle
          = (parsedMessages parse lines).map IdleSource.processCmd
            ++ [IdleSource.processCmd m, IdleSource.mainQuit]) := by
  obtain ⟨lines, tail, e, hl, ht⟩ := stream_decompose stream
  have hinit : memchr WinReader.init.buf 10 = none := rfl
  have hw := stdinReaderThread_eq_scan parse reads hreads WinReader.init hinit
  rw [hbytes, e] at hw
  have hb : WinReader.init.buf ++ (streamOfLines lines ++ tail)
      = streamOfLines lines ++ tail := rfl
  rw [hb, scanLines_stream_tail parse lines tail hl ht] at hw
  have hx := stdinReader_stream_tail parse hparse lines tail ht hl LinuxReader.init
  rw [parsedMessages_append_tail] at hx
  refine ⟨lines, tail, e, hl, ht, ?_, ?_, ?_, ?_⟩
  · rw [hw]; simp [WinReader.init]
  · rw [hw]; simp [WinReader.init]
  · intro hn
    rw [e, hx, hn]
    simp [LinuxReader.init]
  · intro m hm
    rw [e, hx, hm]
    simp [LinuxReader.init]

/-- C13, amended, at the stream `1\n0` cut into the reads `1\n` and `0`. -/
theorem readers_on_unterminated_tail_witness :
    toyParse [] = none ∧ (∀ chunk ∈ [[49, 10], [48]], chunk ≠ ([] : List Nat)) ∧
      bytesOfReads [[49, 10], [48]] = [49, 10, 48] ∧
      ∃ (lines : List (List Nat)) (tail : List Nat),
        [49, 10, 48] = streamOfLines lines ++ tail ∧ (∀ l ∈ lines, 10 ∉ l) ∧ 10 ∉ tail ∧
        (stdinReaderThread toyParse [[49, 10], [48]] WinReader.init).parsed = lines.map cstr ∧
        (stdinReaderThread toyParse [[49, 10], [48]] WinReader.init).posted
          = (parsedMessages toyParse lines).map WinMsg.stdinCmd ++ [WinMsg.close] ∧
        (toyParse (cstr tail) = none →
          (stdinReader toyParse [49, 10, 48] LinuxReader.init).idle
            = (parsedMessages toyParse lines).map IdleSource.processCmd
              ++ [IdleSource.mainQuit]) ∧
        (∀ m, toyParse (cstr tail) = some m →
          (stdinReader toyParse [49, 10, 48] LinuxReader.init).idle
            = (parsedMessages toyParse lines).map IdleSource.processCmd
              ++ [IdleSource.processCmd m, IdleSource.mainQuit]) :=
  ⟨rfl, by decide, by decide,
    readers_on_unterminated_tail toyParse rfl [49, 10, 48] [[49, 10], [48]] (by decide)
      (by decide)⟩

end TrayJS
